import Mathlib

/-!
# Verification of the ocpipe response-validation and self-correction engine

A shallow embedding, in Lean 4, of the core of the `ocpipe` repository:

* `src/parsing.ts` — JSON extraction (`extractJsonString`,
  `extractBalancedArray`), schema validation (`tryParseJson`,
  `convertNullToUndefined`, `findSimilarField`), the restricted jq patch
  strategy (`applyJqPatch`) and the RFC-6902 JSON Patch strategy
  (`applyJsonPatch` with `getValueAtPath` / `setValueAtPath` /
  `removeValueAtPath` and the prototype-pollution guards).
* `src/predict.ts` — the `Predict.execute` control flow with its JSON-repair
  and field-correction loops (`repairJson`, `correctFields`).
* `src/pipeline.ts` — the `Pipeline.run` retry/checkpoint state machine.
* `src/types.ts` — the shared data model (`FieldError`, `TryParseResult`,
  `ExecutionContext`, `RetryConfig`, `CorrectionConfig`, ...).

JavaScript values manipulated by the engine are modelled by the inductive
family `JSVal` below.  External collaborators — the LLM backend (`runAgent`),
the `jq` subprocess and the `JSON.parse` builtin — are parameters of the
embedding (oracles); `jsonParse` is an executable model of `JSON.parse`
(restricted to integer numerals, which is all the development needs) used to
instantiate the oracle in concrete scenarios.  JSON numbers are embedded as
integers: no part of the engine performs numeric computation on document
values, so floating-point behaviour is irrelevant to every property proved
here.
-/

namespace Ocpipe

mutual
/-- JavaScript/JSON values as the engine sees them.  `undef` is JavaScript's
`undefined`: it can be stored into an object slot by the patch engine (a
`move` whose `from` path is rejected writes `undefined` at its destination)
and is dropped by `JSON.stringify`.  Numbers are restricted to integers (see
the module comment).  Objects are insertion-ordered key/value sequences, as
produced by `JSON.parse`. -/
inductive JSVal where
  | null
  | undef
  | bool (b : Bool)
  | num (n : Int)
  | str (s : String)
  | arr (items : JSList)
  | obj (fields : JSFields)
inductive JSList where
  | nil
  | cons (v : JSVal) (tl : JSList)
inductive JSFields where
  | nil
  | cons (k : String) (v : JSVal) (tl : JSFields)
end

namespace JSList

/-- Number of elements of a `JSList`. -/
def length : JSList → Nat
  | .nil => 0
  | .cons _ tl => length tl + 1

/-- Element access, `l[i]` on a JavaScript array: `undefined` when out of
range. -/
def getJS : JSList → Nat → JSVal
  | .nil, _ => .undef
  | .cons v _, 0 => v
  | .cons _ tl, n + 1 => getJS tl n

/-- `l[i] = v` for `i` within range (leaves the list unchanged otherwise;
out-of-range writes are handled by `setPad`). -/
def setAt : JSList → Nat → JSVal → JSList
  | .nil, _, _ => .nil
  | .cons _ tl, 0, v => .cons v tl
  | .cons w tl, n + 1, v => .cons w (setAt tl n v)

/-- List append. -/
def append : JSList → JSList → JSList
  | .nil, l => l
  | .cons v tl, l => .cons v (append tl l)

/-- `n` copies of `null` (the JSON-observable content of the holes of a
sparse JavaScript array). -/
def nulls : Nat → JSList
  | 0 => .nil
  | n + 1 => .cons .null (nulls n)

/-- `a[i] = v` on a JavaScript array, JSON-observably: in-range writes update
the slot, writes past the end pad the gap with `null` (what
`JSON.stringify` shows for the holes of the resulting sparse array). -/
def setPad (l : JSList) (i : Nat) (v : JSVal) : JSList :=
  if i < l.length then l.setAt i v
  else l.append ((nulls (i - l.length)).append (.cons v .nil))

/-- `splice(start, 1)` with `start` already clamped to `[0, length]`:
removes the element at `start` when one exists. -/
def spliceAt : JSList → Nat → JSList
  | .nil, _ => .nil
  | .cons _ tl, 0 => tl
  | .cons v tl, n + 1 => .cons v (spliceAt tl n)

/-- Conversion from a Lean list, for readable concrete values. -/
def ofList : List JSVal → JSList
  | [] => .nil
  | v :: tl => .cons v (ofList tl)

/-- Conversion to a Lean list. -/
def toList : JSList → List JSVal
  | .nil => []
  | .cons v tl => v :: toList tl

end JSList

namespace JSFields

/-- JavaScript property read `o[k]`: the first binding of `k`, or
`undefined` when the key is absent.  (Objects built by `JSON.parse` bind
every key once.) -/
def lookupJS : JSFields → String → JSVal
  | .nil, _ => .undef
  | .cons k v tl, key => if k = key then v else lookupJS tl key

/-- Whether the key is bound (JavaScript `k in o` on parse-produced
objects). -/
def hasKey : JSFields → String → Bool
  | .nil, _ => false
  | .cons k _ tl, key => k = key || hasKey tl key

/-- JavaScript property write `o[k] = v`: overwrites the existing binding in
place, or appends a new binding at the end (JS insertion order). -/
def setKey : JSFields → String → JSVal → JSFields
  | .nil, key, v => .cons key v .nil
  | .cons k w tl, key, v =>
      if k = key then .cons k v tl else .cons k w (setKey tl key v)

/-- JavaScript `delete o[k]`: removes the binding of `k` when present. -/
def removeKey : JSFields → String → JSFields
  | .nil, _ => .nil
  | .cons k v tl, key => if k = key then tl else .cons k v (removeKey tl key)

/-- The keys, in insertion order (`Object.keys`). -/
def keys : JSFields → List String
  | .nil => []
  | .cons k _ tl => k :: keys tl

/-- Conversion from a Lean association list, for readable concrete values. -/
def ofList : List (String × JSVal) → JSFields
  | [] => .nil
  | (k, v) :: tl => .cons k v (ofList tl)

end JSFields

/-! ## String utilities (models of the JavaScript primitives the source uses) -/

/-- The characters matched by `\s` in a JavaScript regular expression,
restricted to ASCII (the engine never meets the Unicode space characters that
`\s` additionally covers). -/
def isWsJS (c : Char) : Bool :=
  c = ' ' || c = '\t' || c = '\n' || c = '\r' || c = '\x0b' || c = '\x0c'

/-- A `\w` word character: `[A-Za-z0-9_]`. -/
def isWordChar (c : Char) : Bool :=
  c.isAlpha || c.isDigit || c = '_'

/-- `String.prototype.trim`, on character lists. -/
def trimJS (cs : List Char) : List Char :=
  ((cs.dropWhile isWsJS).reverse.dropWhile isWsJS).reverse

/-- `parseInt(s, 10)`: skip leading whitespace, optional sign, then the
maximal run of leading digits; `none` models `NaN` (no digit found). -/
def parseIntJS (s : String) : Option Int :=
  let cs := s.data.dropWhile isWsJS
  let (sign, cs) : Int × List Char :=
    match cs with
    | '-' :: tl => (-1, tl)
    | '+' :: tl => (1, tl)
    | _ => (1, cs)
  let digits := cs.takeWhile Char.isDigit
  if digits.isEmpty then none
  else some (sign * (Int.ofNat (digits.foldl (fun a c => a * 10 + (c.toNat - '0'.toNat)) 0)))

/-- Whether the string consists of one or more digits (the `/^\d+$/` test the
patch engine uses to choose between creating an intermediate array or
object). -/
def isAllDigits (s : String) : Bool :=
  !s.isEmpty && s.data.all Char.isDigit

/-- Whether `pat` occurs as a contiguous substring of `cs`
(`String.prototype.includes` / regex literal search). -/
def containsSeq (cs pat : List Char) : Bool :=
  match cs with
  | [] => pat.isEmpty
  | _ :: tl => pat.isPrefixOf cs || containsSeq tl pat

/-- Substring test on strings. -/
def containsStr (s pat : String) : Bool :=
  containsSeq s.data pat.data

/-- ASCII lowercasing (`String.prototype.toLowerCase`). -/
def lowerStr (s : String) : String :=
  String.mk (s.data.map Char.toLower)

/-- `s.replace(/_/g, '')`: drop every underscore. -/
def stripUnderscores (s : String) : String :=
  String.mk (s.data.filter (fun c => c ≠ '_'))

/-- `String.prototype.split` with a one-character separator. -/
def splitChar (c : Char) : List Char → List Char → List String
  | [], acc => [String.mk acc.reverse]
  | d :: tl, acc =>
      if d = c then String.mk acc.reverse :: splitChar c tl []
      else splitChar c tl (d :: acc)

/-- `s.split(c)`. -/
def splitCharStr (s : String) (c : Char) : List String :=
  splitChar c s.data []

/-- Global replacement of a (nonempty) literal pattern, fuel-indexed like
`bracketsToSlashesF`. -/
def replaceSeqF : Nat → List Char → List Char → List Char → List Char
  | 0, cs, _, _ => cs
  | _ + 1, [], _, _ => []
  | fuel + 1, c :: tl, pat, rep =>
      if pat.isPrefixOf (c :: tl) then
        rep ++ replaceSeqF fuel ((c :: tl).drop pat.length) pat rep
      else c :: replaceSeqF fuel tl pat rep

/-- `s.replace(/pat/g, rep)` for a literal pattern. -/
def replaceStr (s pat rep : String) : String :=
  String.mk (replaceSeqF s.data.length s.data pat.data rep.data)

/-! ## Response extraction (`extractJsonString`, `extractBalancedArray`)

`parsing.ts` pulls a JSON object out of free-form LLM text in two tiers:
a fenced code block matched by the regular expression
 ``` (?:json)? \s* (\{[\s\S]*?) ``` (spaces added here for readability),
then a brace-balanced scan from the first `{`. -/

/-- Index of the first occurrence of `pat` in `cs`, if any. -/
def findSeq (cs pat : List Char) : Option Nat :=
  match cs with
  | [] => if pat.isEmpty then some 0 else none
  | _ :: tl =>
      if pat.isPrefixOf cs then some 0
      else (findSeq tl pat).map (· + 1)

/-- One attempt of the code-block regex at the current position: requires
three backticks, an optional literal `json`, greedy whitespace, then `{`;
the (lazy) capture group runs from that `{` up to the next three backticks.
Returns the capture, or `none` when the pattern does not match here. -/
def fenceAttempt (cs : List Char) : Option (List Char) :=
  match cs with
  | '`' :: '`' :: '`' :: rest =>
      let afterTag :=
        match rest with
        | 'j' :: 's' :: 'o' :: 'n' :: tl => tl
        | _ => rest
      let body := afterTag.dropWhile isWsJS
      match body with
      | '\x7b' :: _ =>
          match findSeq body.tail ['`', '`', '`'] with
          | some n => some (body.take (n + 1))
          | none => none
      | _ => none
  | _ => none

/-- Leftmost match of the code-block regex: try `fenceAttempt` at every
position, left to right (the JavaScript regex engine advances the start
position one character at a time). -/
def fenceMatch : List Char → Option (List Char)
  | [] => none
  | c :: tl =>
      match fenceAttempt (c :: tl) with
      | some cap => some cap
      | none => fenceMatch tl

/-- The brace-counting walk of `extractJsonString`: starting at a `{`,
increment on `{`, decrement on `}`, and stop (inclusively) when the counter
returns to zero.  Returns `none` when the counter never returns to zero
(`endIdx` stays at `startIdx` in the source, failing `endIdx > startIdx`). -/
def braceWalk : List Char → Nat → List Char → Option (List Char)
  | [], _, _ => none
  | c :: tl, depth, acc =>
      if c = '\x7b' then braceWalk tl (depth + 1) (acc ++ [c])
      else if c = '\x7d' then
        match depth with
        | 0 => none
        | 1 => some (acc ++ [c])
        | d + 2 => braceWalk tl (d + 1) (acc ++ [c])
      else braceWalk tl depth (acc ++ [c])

/-- `extractJsonString` (parsing.ts): fenced code block first (trimmed
capture), then the brace-balanced span from the first `{`; `none` when
neither succeeds. -/
def extractJsonString (response : String) : Option String :=
  match fenceMatch response.data with
  | some cap => some (String.mk (trimJS cap))
  | none =>
      let cs := response.data
      let fromBrace := cs.dropWhile (fun c => c ≠ '\x7b')
      match fromBrace with
      | [] => none
      | _ =>
          match braceWalk fromBrace 0 [] with
          | some span => some (String.mk span)
          | none => none

/-- The bracket-counting walk of `extractBalancedArray`, analogous to
`braceWalk` with `[` / `]`. -/
def bracketWalk : List Char → Nat → List Char → Option (List Char)
  | [], _, _ => none
  | c :: tl, depth, acc =>
      if c = '[' then bracketWalk tl (depth + 1) (acc ++ [c])
      else if c = ']' then
        match depth with
        | 0 => none
        | 1 => some (acc ++ [c])
        | d + 2 => bracketWalk tl (d + 1) (acc ++ [c])
      else bracketWalk tl depth (acc ++ [c])

/-- `extractBalancedArray(text, startIdx)` where `startIdx` is the index of
the first `[` at or after which to scan: here the caller passes the suffix
of the text from the first `[` (or the whole text when there is no `[`,
yielding `none` exactly as `startIdx === -1` does in the source). -/
def extractBalancedArray (text : String) : Option String :=
  let fromBracket := text.data.dropWhile (fun c => c ≠ '[')
  match fromBracket with
  | [] => none
  | _ =>
      match bracketWalk fromBracket 0 [] with
      | some span => some (String.mk span)
      | none => none

/-! ## `JSON.parse` model

The engine delegates string → value conversion to the `JSON.parse` builtin.
Throughout the embedding that builtin is a parameter (`jparse`), so every
general theorem holds for an arbitrary parser; `jsonParse` below is an
executable model of `JSON.parse` — standard JSON grammar, numbers restricted
to integer numerals, string escapes restricted to the ones the development
exercises — used to instantiate the parameter in concrete scenarios. -/

/-- JSON whitespace. -/
def isJsonWs (c : Char) : Bool :=
  c = ' ' || c = '\t' || c = '\n' || c = '\r'

/-- Parse a JSON string literal body (after the opening quote), returning
the decoded characters and the remaining input.  Supported escapes:
`\"  \\  \/  \n  \t  \r  \b  \f`. -/
def parseStrLit : List Char → Option (List Char × List Char)
  | [] => none
  | '"' :: rest => some ([], rest)
  | '\\' :: e :: rest =>
      let dec : Option Char :=
        match e with
        | '"' => some '"'
        | '\\' => some '\\'
        | '/' => some '/'
        | 'n' => some '\n'
        | 't' => some '\t'
        | 'r' => some '\r'
        | 'b' => some '\x08'
        | 'f' => some '\x0c'
        | _ => none
      match dec with
      | none => none
      | some c =>
          match parseStrLit rest with
          | some (body, rem) => some (c :: body, rem)
          | none => none
  | c :: rest =>
      match parseStrLit rest with
      | some (body, rem) => some (c :: body, rem)
      | none => none

/-- Parse an integer numeral: optional minus, one or more digits; rejects a
following `.`, `e` or `E` (non-integer numbers are outside the model). -/
def parseNumLit (cs : List Char) : Option (Int × List Char) :=
  let (sign, cs') : Int × List Char :=
    match cs with
    | '-' :: tl => (-1, tl)
    | _ => (1, cs)
  let digits := cs'.takeWhile Char.isDigit
  let rest := cs'.dropWhile Char.isDigit
  if digits.isEmpty then none
  else
    match rest with
    | '.' :: _ => none
    | 'e' :: _ => none
    | 'E' :: _ => none
    | _ => some (sign * Int.ofNat (digits.foldl (fun a c => a * 10 + (c.toNat - '0'.toNat)) 0), rest)

mutual
/-- Recursive-descent JSON value parser (fuel-indexed; the top level supplies
`length + 1` fuel, which always suffices). -/
def parseVal : Nat → List Char → Option (JSVal × List Char)
  | 0, _ => none
  | fuel + 1, cs =>
      match cs.dropWhile isJsonWs with
      | 'n' :: 'u' :: 'l' :: 'l' :: rest => some (.null, rest)
      | 't' :: 'r' :: 'u' :: 'e' :: rest => some (.bool true, rest)
      | 'f' :: 'a' :: 'l' :: 's' :: 'e' :: rest => some (.bool false, rest)
      | '"' :: rest =>
          match parseStrLit rest with
          | some (body, rem) => some (.str (String.mk body), rem)
          | none => none
      | '[' :: rest => parseArrBody fuel (rest.dropWhile isJsonWs)
      | '\x7b' :: rest => parseObjBody fuel (rest.dropWhile isJsonWs)
      | other => (parseNumLit other).map fun (n, rem) => (.num n, rem)

/-- Array body after `[` (leading whitespace already skipped). -/
def parseArrBody : Nat → List Char → Option (JSVal × List Char)
  | 0, _ => none
  | fuel + 1, cs =>
      match cs with
      | ']' :: rest => some (.arr .nil, rest)
      | _ =>
          match parseArrElems fuel cs with
          | some (items, rem) => some (.arr items, rem)
          | none => none

/-- One-or-more comma-separated array elements, then `]`. -/
def parseArrElems : Nat → List Char → Option (JSList × List Char)
  | 0, _ => none
  | fuel + 1, cs =>
      match parseVal fuel cs with
      | none => none
      | some (v, rem) =>
          match rem.dropWhile isJsonWs with
          | ',' :: rest =>
              match parseArrElems fuel rest with
              | some (items, rem2) => some (.cons v items, rem2)
              | none => none
          | ']' :: rest => some (.cons v .nil, rest)
          | _ => none

/-- Object body after `{` (leading whitespace already skipped). -/
def parseObjBody : Nat → List Char → Option (JSVal × List Char)
  | 0, _ => none
  | fuel + 1, cs =>
      match cs with
      | '\x7d' :: rest => some (.obj .nil, rest)
      | _ =>
          match parseObjMembers fuel cs .nil with
          | some (fields, rem) => some (.obj fields, rem)
          | none => none

/-- One-or-more `"key": value` members, then `}`, folded left-to-right into
the accumulator with `setKey` — a duplicate key keeps the first binding's
position and the last binding's value, matching `JSON.parse`. -/
def parseObjMembers : Nat → List Char → JSFields → Option (JSFields × List Char)
  | 0, _, _ => none
  | fuel + 1, cs, acc =>
      match cs.dropWhile isJsonWs with
      | '"' :: rest =>
          match parseStrLit rest with
          | none => none
          | some (keyChars, afterKey) =>
              match afterKey.dropWhile isJsonWs with
              | ':' :: afterColon =>
                  match parseVal fuel afterColon with
                  | none => none
                  | some (v, rem) =>
                      let acc' := acc.setKey (String.mk keyChars) v
                      match rem.dropWhile isJsonWs with
                      | ',' :: rest2 => parseObjMembers fuel rest2 acc'
                      | '\x7d' :: rest2 => some (acc', rest2)
                      | _ => none
              | _ => none
      | _ => none
end

/-- `jsonParse`: the executable model of `JSON.parse`.  Parses one value and
requires only whitespace to remain; `Except.error` carries the exception
message (`SyntaxError.message` in JavaScript — the model uses a fixed
message, no proved property depends on its wording). -/
def jsonParse (s : String) : Except String JSVal :=
  match parseVal (s.length + 1) s.data with
  | some (v, rem) =>
      if (rem.dropWhile isJsonWs).isEmpty then .ok v
      else .error "Unexpected non-whitespace character after JSON data"
  | none => .error "Unexpected token in JSON"

/-! ## `JSON.stringify` model -/

/-- Escape one character for a JSON string literal (the escapes the engine's
values exercise). -/
def escapeChar (c : Char) : List Char :=
  if c = '"' then ['\\', '"']
  else if c = '\\' then ['\\', '\\']
  else if c = '\n' then ['\\', 'n']
  else if c = '\t' then ['\\', 't']
  else if c = '\r' then ['\\', 'r']
  else [c]

/-- Serialize a string to a JSON string literal. -/
def quoteStr (s : String) : String :=
  String.mk ('"' :: (s.data.flatMap escapeChar) ++ ['"'])

mutual
/-- `JSON.stringify` without spacing: `none` models the JavaScript call
returning `undefined` (stringifying `undefined` itself). -/
def stringifyVal : JSVal → Option String
  | .null => some "null"
  | .undef => none
  | .bool b => some (if b then "true" else "false")
  | .num n => some (toString n)
  | .str s => some (quoteStr s)
  | .arr items => some ("[" ++ stringifyItems items ++ "]")
  | .obj fields => some ("\x7b" ++ stringifyMembers fields ++ "\x7d")

/-- Array elements, comma-separated; an `undefined` element serializes as
`null`. -/
def stringifyItems : JSList → String
  | .nil => ""
  | .cons v .nil => (stringifyVal v).getD "null"
  | .cons v tl => (stringifyVal v).getD "null" ++ "," ++ stringifyItems tl

/-- Object members, comma-separated; a member whose value is `undefined` is
dropped. -/
def stringifyMembers : JSFields → String
  | .nil => ""
  | .cons _ .undef tl => stringifyMembers tl
  | .cons k v tl =>
      match tl, stringifyMembers tl with
      | _, "" => quoteStr k ++ ":" ++ ((stringifyVal v).getD "null")
      | _, rest => quoteStr k ++ ":" ++ ((stringifyVal v).getD "null") ++ "," ++ rest
end

/-- `JSON.stringify` as the engine calls it on a document that is an object
or array (never `undefined`): total, with `"undefined"` as an unreachable
placeholder. -/
def stringifyValD (v : JSVal) : String :=
  (stringifyVal v).getD "undefined"

/-! ## `JSON.parse(JSON.stringify(x))` deep copy

The JSON Patch engine deep-copies its input (`applyJsonPatch`, and the entry
of `correctFields`) through a stringify/parse round trip.  JSON-observably
that round trip drops object members whose value is `undefined` and turns
`undefined` array elements into `null`; `deepCopy*` models it directly. -/

mutual
/-- Round-trip copy of a value.  (`undef` maps to itself; every use in the
engine is guarded so that the argument is never `undef` — stringifying the
standalone value `undefined` would make `JSON.parse` throw, and the one
call site where that can happen catches the exception.) -/
def deepCopyVal : JSVal → JSVal
  | .null => .null
  | .undef => .undef
  | .bool b => .bool b
  | .num n => .num n
  | .str s => .str s
  | .arr items => .arr (deepCopyItems items)
  | .obj fields => .obj (deepCopyFields fields)

/-- Round-trip copy of array elements: `undefined` elements become `null`. -/
def deepCopyItems : JSList → JSList
  | .nil => .nil
  | .cons .undef tl => .cons .null (deepCopyItems tl)
  | .cons v tl => .cons (deepCopyVal v) (deepCopyItems tl)

/-- Round-trip copy of object members: `undefined`-valued members are
dropped. -/
def deepCopyFields : JSFields → JSFields
  | .nil => .nil
  | .cons _ .undef tl => deepCopyFields tl
  | .cons k v tl => .cons k (deepCopyVal v) (deepCopyFields tl)
end

/-! ## `convertNullToUndefined` (parsing.ts)

Recursively drops `null`-valued members of an object; array elements that
are objects are recursed into, any other element (in particular `null`) is
kept in place.  An array element that is itself an array is passed to the
recursive call as if it were a record — `Object.entries` turns it into an
index-keyed plain object — which `convArrAsObj` reproduces. -/

mutual
/-- The body of `convertNullToUndefined`: builds a new record, skipping
`null` members, mapping array members elementwise and recursing into object
members. -/
def convertNullToUndefined : JSFields → JSFields
  | .nil => .nil
  | .cons _ .null tl => convertNullToUndefined tl
  | .cons k (.arr items) tl => .cons k (.arr (convItems items)) (convertNullToUndefined tl)
  | .cons k (.obj fields) tl => .cons k (.obj (convertNullToUndefined fields)) (convertNullToUndefined tl)
  | .cons k v tl => .cons k v (convertNullToUndefined tl)

/-- Elementwise mapping of an array member's items. -/
def convItems : JSList → JSList
  | .nil => .nil
  | .cons v tl => .cons (convArrItem v) (convItems tl)

/-- One array item: objects (and, through the `Object.entries` quirk,
arrays) are recursed into; everything else — `null` in particular — is
returned unchanged, preserving positional slots. -/
def convArrItem : JSVal → JSVal
  | .arr items => .obj (convArrAsObj items 0)
  | .obj fields => .obj (convertNullToUndefined fields)
  | v => v

/-- `convertNullToUndefined` applied to `Object.entries` of an array:
index-keyed members, `null` elements skipped like any `null` member. -/
def convArrAsObj : JSList → Nat → JSFields
  | .nil, _ => .nil
  | .cons .null tl, n => convArrAsObj tl (n + 1)
  | .cons (.arr items) tl, n => .cons (toString n) (.arr (convItems items)) (convArrAsObj tl (n + 1))
  | .cons (.obj fields) tl, n => .cons (toString n) (.obj (convertNullToUndefined fields)) (convArrAsObj tl (n + 1))
  | .cons v tl, n => .cons (toString n) v (convArrAsObj tl (n + 1))
end

/-- `Object.entries` of an array: index-keyed members, in order. -/
def indexFields : JSList → Nat → JSFields
  | .nil, _ => .nil
  | .cons v tl, n => .cons (toString n) v (indexFields tl (n + 1))

/-- `Object.entries` of an arbitrary value read through a `Record` cast:
objects give their members, arrays give index-keyed members, primitives give
nothing. -/
def entriesJS : JSVal → JSFields
  | .obj fields => fields
  | .arr items => indexFields items 0
  | _ => .nil

/-! ## Data model (`types.ts`) and the Zod validation model

`FieldError` is embedded exactly as declared in `src/types.ts`: `path`,
`message`, `expectedType`, `foundField?`, `foundValue?` — note that the
interface has **no** `code` property (`predict.ts` nevertheless reads
`e.code`; see `fieldErrorCode` below).

Zod (`z.object(shape).safeParse`) is an external library; `zodSafeParse`
models its documented v4 behaviour for the field types the signature
builders produce (`z.string()`, `z.number()`, `z.boolean()`, `.optional()`):
a missing or `undefined` member of the parsed object is an
`invalid_type` issue with `received: "undefined"` unless the field is
optional; a present member must match the primitive type; unknown keys are
stripped; validation fails exactly when at least one issue was produced. -/

/-- The Zod field types the signature builders of this development use. -/
inductive FieldType where
  | str
  | num
  | bool
  | optional (t : FieldType)
deriving DecidableEq

/-- `FieldConfig` (types.ts): a Zod type plus an optional description. -/
structure FieldConfig where
  type : FieldType
  desc : Option String := none

/-- An output schema: ordered field name → config map. -/
def Schema := List (String × FieldConfig)

/-- A Zod validation issue (the parts of `z.ZodIssue` the engine reads). -/
structure ZodIssue where
  code : String
  path : List String
  message : String
  expected : String
  received : String

/-- `FieldError` (types.ts, lines 177–188).  There is no `code` field. -/
structure FieldError where
  path : String
  message : String
  expectedType : String
  foundField : Option String := none
  foundValue : Option JSVal := none

/-- `TryParseResult` (types.ts, lines 190–200). -/
structure TryParseResult where
  ok : Bool
  data : Option JSFields := none
  errors : Option (List FieldError) := none
  json : Option JSFields := none

/-- `SchemaValidationError` (parsing.ts): the terminal error thrown after
correction is exhausted. -/
structure SchemaValidationError where
  message : String
  fieldErrors : List FieldError
  correctionAttempts : Nat

/-- The name Zod v4 uses for a value's type in `invalid_type` issues. -/
def zodReceived : JSVal → String
  | .null => "null"
  | .undef => "undefined"
  | .bool _ => "boolean"
  | .num _ => "number"
  | .str _ => "string"
  | .arr _ => "array"
  | .obj _ => "object"

/-- The expected-type name of a field type (unwrapping `optional`, as Zod
does when a value is present). -/
def expectedName : FieldType → String
  | .str => "string"
  | .num => "number"
  | .bool => "boolean"
  | .optional t => expectedName t

/-- Whether the type accepts a missing / `undefined` member. -/
def isOptionalType : FieldType → Bool
  | .optional _ => true
  | _ => false

/-- The Zod v4 `invalid_type` message. -/
def zodMsg (expected received : String) : String :=
  "Invalid input: expected " ++ expected ++ ", received " ++ received

/-- Validation of one present (non-`undefined`) value against a field
type. -/
def validateField : FieldType → JSVal → Option ZodIssue
  | .optional t, v => validateField t v
  | .str, .str _ => none
  | .str, v => some ⟨"invalid_type", [], zodMsg "string" (zodReceived v), "string", zodReceived v⟩
  | .num, .num _ => none
  | .num, v => some ⟨"invalid_type", [], zodMsg "number" (zodReceived v), "number", zodReceived v⟩
  | .bool, .bool _ => none
  | .bool, v => some ⟨"invalid_type", [], zodMsg "boolean" (zodReceived v), "boolean", zodReceived v⟩

/-- `z.object(shape).safeParse(parsed)`: walk the shape in order, collecting
issues and the validated members (unknown keys stripped, missing optional
fields absent from the output). -/
def zodSafeParse (shape : Schema) (parsed : JSFields) :
    List ZodIssue × JSFields :=
  match shape with
  | [] => ([], .nil)
  | (name, config) :: rest =>
      let (issues, out) := zodSafeParse rest parsed
      match parsed.lookupJS name with
      | .undef =>
          if isOptionalType config.type then (issues, out)
          else
            (⟨"invalid_type", [name], zodMsg (expectedName config.type) "undefined",
              expectedName config.type, "undefined"⟩ :: issues, out)
      | v =>
          match validateField config.type v with
          | none => (issues, .cons name v out)
          | some issue => ({ issue with path := [name] } :: issues, out)

/-- `zodTypeToString` (parsing.ts) for the field types of this
development. -/
def zodTypeToString : FieldType → String
  | .str => "string"
  | .num => "number"
  | .bool => "boolean"
  | .optional t => "optional<" ++ zodTypeToString t ++ ">"

/-- The static table of known field-name synonym groups
(`findSimilarField`). -/
def variationsTable : List (String × List String) :=
  [ ("issue_type", ["type", "issueType", "issue", "kind", "category"])
  , ("segment_index", ["index", "segmentIndex", "segment_idx", "idx"])
  , ("timestamp_sec", ["timestamp", "time", "time_sec", "seconds", "timestampSec"])
  , ("why_awkward", ["description", "reason", "explanation", "why"])
  , ("ideal_state", ["suggestion", "suggested", "fix", "recommendation"])
  , ("severity", ["priority", "level", "importance"]) ]

/-- `findSimilarField` (parsing.ts): among the parsed object's extra keys,
first a known-synonym lookup, then a normalized (lowercased,
underscore-stripped) equality-or-substring match. -/
def findSimilarField (expectedField : String) (parsed : JSFields)
    (schemaKeys : List String) : Option String :=
  let parsedKeys := parsed.keys
  let extraKeys := parsedKeys.filter (fun k => !schemaKeys.contains k)
  let known : Option String :=
    match (variationsTable.lookup expectedField) with
    | some vs => vs.find? (fun v => extraKeys.contains v)
    | none => none
  match known with
  | some v => some v
  | none =>
      let normalized := stripUnderscores (lowerStr expectedField)
      extraKeys.find? fun key =>
        let nk := stripUnderscores (lowerStr key)
        nk = normalized || containsStr nk normalized || containsStr normalized nk

/-- `getExpectedType` (parsing.ts). -/
def getExpectedType (issue : ZodIssue) (schema : Schema) : String :=
  let fieldName := issue.path.headD ""
  match schema.lookup fieldName with
  | some config => zodTypeToString config.type
  | none => if issue.code = "invalid_type" then issue.expected else "unknown"

/-- `zodErrorsToFieldErrors` (parsing.ts): one `FieldError` per issue, with
similar-field detection for missing fields. -/
def zodErrorsToFieldErrors (issues : List ZodIssue) (schema : Schema)
    (parsed : JSFields) : List FieldError :=
  let schemaKeys := schema.map Prod.fst
  issues.map fun issue =>
    let path := String.intercalate "." issue.path
    let expectedType := getExpectedType issue schema
    let fieldName := issue.path.headD ""
    let isMissing := issue.code = "invalid_type" && issue.received = "undefined"
    let found : Option String :=
      if isMissing then findSimilarField fieldName parsed schemaKeys else none
    match found with
    | some similar =>
        ⟨path, issue.message, expectedType, some similar, some (parsed.lookupJS similar)⟩
    | none => ⟨path, issue.message, expectedType, none, none⟩

/-- `tryParseJson` (parsing.ts, lines 71–125), with the `JSON.parse`
builtin as the `jparse` parameter: extract a JSON substring (else a single
`No JSON found in response` error), parse it (else a single
`JSON parse failed: …` error), convert `null` members to absent, then
validate with Zod; on validation failure the extracted object is carried in
`json` together with the converted field errors. -/
def tryParseJson (jparse : String → Except String JSVal) (response : String)
    (schema : Schema) : TryParseResult :=
  match extractJsonString response with
  | none =>
      { ok := false
        errors := some [⟨"", "No JSON found in response", "object", none, none⟩] }
  | some jsonStr =>
      match jparse jsonStr with
      | .error msg =>
          { ok := false
            errors := some [⟨"", "JSON parse failed: " ++ msg, "object", none, none⟩] }
      | .ok v =>
          let parsed := convertNullToUndefined (entriesJS v)
          match zodSafeParse schema parsed with
          | ([], data) => { ok := true, data := some data, json := some parsed }
          | (issues, _) =>
              { ok := false
                errors := some (zodErrorsToFieldErrors issues schema parsed)
                json := some parsed }

/-- `tryParseResponse` (parsing.ts) forwards to `tryParseJson`. -/
def tryParseResponse (jparse : String → Except String JSVal)
    (response : String) (schema : Schema) : TryParseResult :=
  tryParseJson jparse response schema

/-! ## JSON Patch (RFC 6902) strategy (parsing.ts)

`applyJsonPatch` and its helpers, translated to a functional rebuild of the
(deep-copied) document.  JavaScript-specific behaviours are modelled
JSON-observably: writing `a[i]` past the end of an array pads the gap with
`null` (what `JSON.stringify` shows for the sparse result), and writes
through a `NaN` or negative index create only non-index properties, which
are invisible to `JSON.stringify` and to every later read the engine
performs — the document is unchanged. -/

/-- `JsonPatchOperation` (parsing.ts).  `from` is a Lean keyword and is
embedded as `fromPath`. -/
structure JsonPatchOperation where
  op : String
  path : String
  value : Option JSVal := none
  fromPath : Option String := none

/-- Replace every `.` by `/` (`path.replace(/\./g, '/')`). -/
def dotsToSlashes (s : String) : String :=
  String.mk (s.data.map fun c => if c = '.' then '/' else c)

/-- `s.replace(/\[(\d+)\]/g, '/$1')`: rewrite `[123]` to `/123`
(fuel-indexed: every step consumes at least one character, so the string's
length suffices as fuel). -/
def bracketsToSlashesF : Nat → List Char → List Char
  | 0, cs => cs
  | _ + 1, [] => []
  | fuel + 1, '[' :: rest =>
      let digits := rest.takeWhile Char.isDigit
      let rem := rest.dropWhile Char.isDigit
      (match digits, rem with
       | _ :: _, ']' :: rem2 => '/' :: digits ++ bracketsToSlashesF fuel rem2
       | _, _ => '[' :: bracketsToSlashesF fuel rest)
  | fuel + 1, c :: rest => c :: bracketsToSlashesF fuel rest

/-- `s.replace(/\[(\d+)\]/g, '/$1')`. -/
def bracketsToSlashes (cs : List Char) : List Char :=
  bracketsToSlashesF cs.length cs

/-- `toJsonPointer` (parsing.ts): pass pointers through, convert dot/bracket
notation otherwise. -/
def toJsonPointer (path : String) : String :=
  if ['/'].isPrefixOf path.data then path
  else if path = "" then ""
  else "/" ++ String.mk (bracketsToSlashes (dotsToSlashes path).data)

/-- `toJsonPointer(p).split('/').filter(Boolean)`. -/
def pathSegments (path : String) : List String :=
  (splitCharStr (toJsonPointer path) '/').filter (fun s => s ≠ "")

/-- The prototype-pollution denylist (`UNSAFE_KEYS`). -/
def UNSAFE_KEYS : List String := ["__proto__", "constructor", "prototype"]

/-- `isUnsafeKey`. -/
def isUnsafeKey (key : String) : Bool := UNSAFE_KEYS.contains key

/-- `unescapeJsonPointerSegment` (RFC 6901): `~1` → `/` first, then `~0` →
`~`. -/
def unescapeJsonPointerSegment (segment : String) : String :=
  replaceStr (replaceStr segment "~1" "/") "~0" "~"

/-- `isSafePathSegment`: the unescaped segment must not be a denylisted key
and must not contain bracket characters. -/
def isSafePathSegment (segment : String) : Bool :=
  let normalized := unescapeJsonPointerSegment segment
  if isUnsafeKey normalized then false
  else if normalized.data.contains '[' || normalized.data.contains ']' then false
  else true

/-- The per-segment rejection test as each path walker performs it: the
literal `__proto__` / `constructor` / `prototype` comparison followed by
`isSafePathSegment` (the walkers run both, back to back, with the same
voiding outcome). -/
def segBlocked (segment : String) : Bool :=
  segment = "__proto__" || segment = "constructor" || segment = "prototype"
    || !isSafePathSegment segment

/-- Array element read `a[parseInt(part, 10)]`: `undefined` for `NaN`,
negative or out-of-range indices. -/
def arrReadJS (items : JSList) (part : String) : JSVal :=
  match parseIntJS part with
  | some i => if 0 ≤ i then items.getJS i.toNat else .undef
  | none => JSVal.undef  -- parseInt gave NaN

/-- `getValueAtPath` (parsing.ts): walks the parts, returning `undefined`
for a blocked segment, a missing slot, or a non-container intermediate. -/
def getValueAtPath : JSVal → List String → JSVal
  | cur, [] => cur
  | cur, part :: rest =>
      if segBlocked part then .undef
      else
        match cur with
        | .null => .undef
        | .undef => .undef
        | .arr items => getValueAtPath (arrReadJS items part) rest
        | .obj fields => getValueAtPath (fields.lookupJS part) rest
        | _ => JSVal.undef  -- reading through a primitive

/-- `setValueAtPath` (parsing.ts) as a functional rebuild: blocked segments
abort without change; missing intermediate slots are created as `[]` or
`Object.create(null)` according to whether the next segment is all digits;
writes through a non-container (or through a `NaN`/negative array index)
leave the document unchanged (JSON-observably). -/
def setValueAtPath : JSVal → List String → JSVal → JSVal
  | cur, [], _ => cur
  | cur, [last], value =>
      if segBlocked last then cur
      else
        match cur with
        | .arr items =>
            (match parseIntJS last with
             | some i => if 0 ≤ i then .arr (items.setPad i.toNat value) else cur
             | none => cur)
        | .obj fields => .obj (fields.setKey last value)
        | _ => cur
  | cur, part :: rest, value =>
      if segBlocked part then cur
      else
        match cur with
        | .arr items =>
            (match parseIntJS part with
             | some i =>
                 if 0 ≤ i then
                   match items.getJS i.toNat with
                   | .undef =>
                       let cont : JSVal :=
                         if isAllDigits (rest.headD "") then .arr .nil else .obj .nil
                       .arr (items.setPad i.toNat (setValueAtPath cont rest value))
                   | v => .arr (items.setAt i.toNat (setValueAtPath v rest value))
                 else cur
             | none => cur)
        | .obj fields =>
            (match fields.lookupJS part with
             | .undef =>
                 let cont : JSVal :=
                   if isAllDigits (rest.headD "") then .arr .nil else .obj .nil
                 .obj (fields.setKey part (setValueAtPath cont rest value))
             | v => .obj (fields.setKey part (setValueAtPath v rest value)))
        | _ => cur

/-- `Array.prototype.splice(start, 1)` with `start = parseInt(lastPart)`
coerced as JavaScript does (`NaN` → 0, negative counted from the end,
clamped to the length). -/
def spliceJS (items : JSList) (part : String) : JSList :=
  let i : Int := (parseIntJS part).getD 0
  let len : Int := Int.ofNat items.length
  let start : Int := if i < 0 then max (len + i) 0 else min i len
  items.spliceAt start.toNat

/-- `removeValueAtPath` (parsing.ts): blocked segments and missing or
non-container intermediates abort without change; the final segment splices
an array index or deletes an object key. -/
def removeValueAtPath : JSVal → List String → JSVal
  | cur, [] => cur
  | cur, [last] =>
      if segBlocked last then cur
      else
        match cur with
        | .arr items => .arr (spliceJS items last)
        | .obj fields => .obj (fields.removeKey last)
        | _ => cur
  | cur, part :: rest =>
      if segBlocked part then cur
      else
        match cur with
        | .arr items =>
            (match parseIntJS part with
             | some i =>
                 if 0 ≤ i ∧ i.toNat < items.length then
                   .arr (items.setAt i.toNat (removeValueAtPath (items.getJS i.toNat) rest))
                 else cur
             | none => cur)
        | .obj fields =>
            if fields.hasKey part then
              .obj (fields.setKey part (removeValueAtPath (fields.lookupJS part) rest))
            else cur
        | _ => cur

/-- One operation of `applyJsonPatch`'s loop (each iteration is wrapped in
`try`/`catch`; the only possible exception — deep-cloning `undefined` in
`copy` — voids the operation).  `test` only logs, never mutates. -/
def patchStep (st : JSVal) (op : JsonPatchOperation) : JSVal :=
  let parts := pathSegments op.path
  if op.op = "add" || op.op = "replace" then
    if parts.isEmpty then
      -- replace the entire document (only for a non-null object/array value)
      match op.value with
      | some (.obj f) => .obj f
      | some (.arr l) => .arr l
      | _ => st
    else setValueAtPath st parts (op.value.getD .undef)
  else if op.op = "remove" then removeValueAtPath st parts
  else if op.op = "move" then
    match op.fromPath with
    | none => st
    | some f =>
        if f = "" then st  -- `if (!op.from) break`: the empty string is falsy
        else
          let fromParts := pathSegments f
          let value := getValueAtPath st fromParts
          let st1 := removeValueAtPath st fromParts
          setValueAtPath st1 parts value
  else if op.op = "copy" then
    match op.fromPath with
    | none => st
    | some f =>
        if f = "" then st
        else
          let srcParts := pathSegments f
          let srcValue := getValueAtPath st srcParts
          match srcValue with
          | .undef => st  -- JSON.parse(JSON.stringify(undefined)) throws; caught
          | v => setValueAtPath st parts (deepCopyVal v)
  else st

/-- `applyJsonPatch` (parsing.ts, lines 727–795): deep-copy the input
through a stringify/parse round trip, then apply the operations in order,
each in isolation. -/
def applyJsonPatch (v : JSVal) (operations : List JsonPatchOperation) : JSVal :=
  operations.foldl patchStep (deepCopyVal v)

/-! ## Patch extraction from LLM replies (parsing.ts) -/

/-- The unchecked `as JsonPatchOperation[]` cast, member by member: property
reads on the parsed elements.  A missing `op` or `path` is read as the empty
string and a missing or non-string `from` as absent — no theorem exercises a
patch whose elements lack these properties (in the source a missing `path`
would throw out of `applyJsonPatch` at `path.startsWith`). -/
def opOfJSVal (v : JSVal) : JsonPatchOperation :=
  match v with
  | .obj f =>
      { op := match f.lookupJS "op" with | .str s => s | _ => ""
        path := match f.lookupJS "path" with | .str s => s | _ => ""
        value := match f.lookupJS "value" with | .undef => none | w => some w
        fromPath := match f.lookupJS "from" with | .str s => some s | _ => none }
  | _ => { op := "", path := "" }

/-- Elementwise cast of a parsed patch array. -/
def opsOfJSVal : JSVal → List JsonPatchOperation
  | .arr items => opsOfList items
  | _ => []
where
  opsOfList : JSList → List JsonPatchOperation
    | .nil => []
    | .cons v tl => opOfJSVal v :: opsOfList tl

/-- `extractJsonPatch` (parsing.ts, lines 677–715): a balanced `[...]` span
inside the first code block if it parses, else the first balanced `[...]`
span of the whole reply if it parses, else no operations. -/
def extractJsonPatch (jparse : String → Except String JSVal)
    (response : String) : List JsonPatchOperation :=
  let rawBranch : List JsonPatchOperation :=
    match extractBalancedArray response with
    | some arrayJson =>
        (match jparse arrayJson with
         | .ok v => opsOfJSVal v
         | .error _ => [])
    | none => []
  match findSeq response.data ['`', '`', '`'] with
  | none => rawBranch
  | some i =>
      let afterOpen := response.data.drop (i + 3)
      match findSeq afterOpen ['`', '`', '`'] with
      | none => rawBranch
      | some j =>
          let content := String.mk (afterOpen.take j)
          match extractBalancedArray content with
          | none => rawBranch
          | some arrayJson =>
              match jparse arrayJson with
              | .ok v => opsOfJSVal v
              | .error _ => rawBranch

/-- `s.replace(/```[^`]*```/g, '')` (fuel-indexed like
`bracketsToSlashesF`). -/
def stripFencesF : Nat → List Char → List Char
  | 0, cs => cs
  | _ + 1, [] => []
  | fuel + 1, c :: tl =>
      if ['`', '`', '`'].isPrefixOf (c :: tl) then
        let after := (c :: tl).drop 3
        let rem := after.dropWhile (fun d => d ≠ '`')
        if ['`', '`', '`'].isPrefixOf rem then stripFencesF fuel (rem.drop 3)
        else c :: stripFencesF fuel tl
      else c :: stripFencesF fuel tl

/-- Remove every ```` ```…``` ```` block (backtick-free interior). -/
def stripFences (s : String) : String :=
  String.mk (stripFencesF s.data.length s.data)

/-- Trimmed string, JavaScript `trim`. -/
def trimStr (s : String) : String :=
  String.mk (trimJS s.data)

/-- Whether a trimmed line looks like a jq patch (`.…` or `del(…`). -/
def looksLikeJqPatch (line : String) : Bool :=
  ['.'].isPrefixOf line.data || ['d', 'e', 'l', '('].isPrefixOf line.data

/-- `extractPatch` (parsing.ts, lines 472–494): the first line starting
with `.` or `del(`; else the first line of the fence-stripped reply when it
looks like a patch; else the whole trimmed reply. -/
def extractPatch (response : String) : String :=
  let lines := splitCharStr response '\n' 
  match lines.find? (fun line => looksLikeJqPatch (trimStr line)) with
  | some line => trimStr line
  | none =>
      let cleaned := trimStr (stripFences response)
      let firstLine := trimStr ((splitCharStr cleaned '\n').headD "")
      if firstLine ≠ "" && looksLikeJqPatch firstLine then firstLine
      else trimStr response

/-! ## Restricted jq strategy (`applyJqPatch`, parsing.ts lines 497–562)

The `jq` subprocess is a parameter `jq : patch → stdin → Option stdout`
(`none` models a non-zero exit status or a spawn failure).  The second
component of the result records whether the subprocess was invoked at all. -/

/-- `\binput\b`-style word-bounded search: the word occurs with a non-word
character (or an edge) on both sides. -/
def wordBoundedFrom : List Char → Option Char → List Char → Bool
  | [], _, _ => false
  | c :: tl, prev, w =>
      (w.isPrefixOf (c :: tl)
        && (match prev with | none => true | some p => !isWordChar p)
        && (match (c :: tl).drop w.length with | [] => true | d :: _ => !isWordChar d))
      || wordBoundedFrom tl (some c) w

/-- Word-bounded occurrence of `w` in `s`. -/
def wordBounded (s w : String) : Bool :=
  wordBoundedFrom s.data none w.data

/-- The `unsafePatterns` denylist: `$ENV` and `$__loc__` (case-insensitive),
word-bounded `input`/`inputs`/`system`/`import`/`include`/`debug`/`error`/
`halt`, the `@`-encoding builtins, backtick interpolation (two backticks
with none between — equivalently, at least two backticks), and any `$`
variable reference. -/
def matchesUnsafePattern (patch : String) : Bool :=
  containsStr (lowerStr patch) "$env"
    || containsStr (lowerStr patch) "$__loc__"
    || wordBounded patch "input"
    || wordBounded patch "inputs"
    || wordBounded patch "system"
    || containsStr patch "@base64d"
    || containsStr patch "@uri"
    || containsStr patch "@csv"
    || containsStr patch "@tsv"
    || containsStr patch "@json"
    || containsStr patch "@text"
    || containsStr patch "@sh"
    || (patch.data.filter (fun c => c = '`')).length ≥ 2
    || wordBounded patch "import"
    || wordBounded patch "include"
    || wordBounded patch "debug"
    || wordBounded patch "error"
    || wordBounded patch "halt"
    || patch.data.contains '$'

/-- One character of the allow-list class `[\s\w[\]."'=|,:\-{}]`. -/
def isSafePatchChar (c : Char) : Bool :=
  isWsJS c || isWordChar c || c = '[' || c = ']' || c = '.' || c = '"'
    || c = '\'' || c = '=' || c = '|' || c = ',' || c = ':' || c = '-'
    || c = '\x7b' || c = '\x7d'

/-- The allow-list test `/^[\s\w[\]."'=|,:\-{}]*$/`. -/
def matchesSafePattern (patch : String) : Bool :=
  patch.data.all isSafePatchChar

/-- `applyJqPatch`: reject the patch on the denylist or the allow-list
(returning the input without touching the subprocess), otherwise pipe
`JSON.stringify(obj)` through `jq -- <patch>` and parse its trimmed stdout;
any subprocess or parse failure returns the input unchanged. -/
def applyJqPatch (jq : String → String → Option String)
    (jparse : String → Except String JSVal) (obj : JSVal) (patch : String) :
    JSVal × Bool :=
  if matchesUnsafePattern patch then (obj, false)
  else if !matchesSafePattern patch then (obj, false)
  else
    let input := stringifyValD obj
    match jq patch input with
    | none => (obj, true)
    | some out =>
        match jparse (trimStr out) with
        | .ok v => (v, true)
        | .error _ => (obj, true)

/-! ## Predict (predict.ts)

`Predict.execute` with its JSON-repair (`repairJson`) and field-correction
(`correctFields`) loops.  The LLM backend (`runAgent`) is the oracle
`backend : Nat → AgentReply`, giving the reply to the n-th backend call of
the run; `callAgent` threads the call counter and records the request fields
the correctness claims inspect (session id, model, agent, timeout).  Prompt
texts are pure string formatting with no bearing on any claim and are not
modelled (`buildPatchPrompt`, `buildBatchPatchPrompt`, `buildJsonPatchPrompt`,
`buildBatchJsonPatchPrompt`, `buildJsonRepairPrompt`, `buildPrompt`). -/

/-- `ModelConfig` (types.ts). -/
structure ModelConfig where
  providerID : String
  modelID : String
deriving DecidableEq

/-- `ExecutionContext` (types.ts), plus the optional `workdir`/`claudeCode`
fields `predict.ts` forwards to the backend (the cancellation `signal` is
not modelled: no claim concerns cancellation). -/
structure ExecutionContext where
  sessionId : Option String := none
  defaultModel : ModelConfig
  defaultAgent : String
  timeoutSec : Nat
  workdir : Option String := none
  claudeCode : Option Bool := none
deriving DecidableEq

/-- `CorrectionConfig` (types.ts). -/
structure CorrectionConfig where
  method : Option String := none
  model : Option ModelConfig := none
  maxFields : Option Nat := none
  maxRounds : Option Nat := none
deriving DecidableEq

/-- The `correction` member of `PredictConfig`:
`undefined | false | CorrectionConfig`. -/
inductive CorrectionSetting where
  | unset
  | disabled
  | config (c : CorrectionConfig)
deriving DecidableEq

/-- `this.config.correction !== false`. -/
def CorrectionSetting.enabled : CorrectionSetting → Bool
  | .disabled => false
  | _ => true

/-- `typeof this.config.correction === 'object' ? this.config.correction
: {}`. -/
def CorrectionSetting.asConfig : CorrectionSetting → CorrectionConfig
  | .config c => c
  | _ => {}

/-- `PredictConfig` (predict.ts); the `template` override is part of prompt
building and is not modelled. -/
structure PredictConfig where
  agent : Option String := none
  model : Option ModelConfig := none
  newSession : Bool := false
  correction : CorrectionSetting := .unset

/-- The request fields of `runAgent` that the claims inspect (the prompt
text is not modelled; see the section comment). -/
structure AgentRequest where
  sessionId : Option String
  model : ModelConfig
  agent : String
  timeoutSec : Nat
deriving DecidableEq

/-- `RunAgentResult` (types.ts). -/
structure AgentReply where
  text : String
  sessionId : String

/-- The oracles of a Predict run: the backend reply to the n-th call, the
`JSON.parse` builtin, and the `jq` subprocess. -/
structure PredictEnv where
  backend : Nat → AgentReply
  jparse : String → Except String JSVal
  jq : String → String → Option String

/-- Backend call counter and request trace. -/
structure CallState where
  n : Nat := 0
  trace : List AgentRequest := []

/-- One backend invocation: returns the oracle's reply for the current call
index and records the request. -/
def callAgent (env : PredictEnv) (st : CallState) (req : AgentRequest) :
    AgentReply × CallState :=
  (env.backend st.n, { n := st.n + 1, trace := st.trace ++ [req] })

/-- `PredictResult` (types.ts); `duration` is wall-clock time and is not
modelled. -/
structure PredictResult where
  data : JSFields
  raw : String
  sessionId : String
  model : ModelConfig

/-- The JavaScript property read `e.code` on a `FieldError`.  The
`FieldError` interface (types.ts, lines 177–188) declares no `code`
property and neither `tryParseJson` nor any other producer of `FieldError`
values sets one, so the read always yields `undefined`. -/
def fieldErrorCode (_ : FieldError) : Option String := none

/-- The `isJsonParseError` test of `Predict.execute` (predict.ts, lines
103–106): `parseResult.errors?.some(e => e.code === 'json_parse_failed' ||
e.code === 'no_json_found') ?? false`. -/
def isJsonParseErrorCheck (errors : Option (List FieldError)) : Bool :=
  match errors with
  | none => false
  | some es =>
      es.any fun e =>
        fieldErrorCode e = some "json_parse_failed"
          || fieldErrorCode e = some "no_json_found"

/-- The request both correction loops send (predict.ts, lines 202–211 and
279–288): the same session — so the model has the context of what it meant
to produce — unless a distinct correction model is configured, in which
case a fresh session with that model. -/
def correctionRequest (ctx : ExecutionContext)
    (correctionModel : Option ModelConfig) (sessionId : String) :
    AgentRequest :=
  { sessionId := if correctionModel.isSome then none else some sessionId
    model := correctionModel.getD ctx.defaultModel
    agent := ctx.defaultAgent
    timeoutSec := ctx.timeoutSec }

/-- The loop of `repairJson` (predict.ts, lines 190–231): each round calls
the backend (same session unless a distinct correction model is
configured), extracts a JSON candidate and accepts it as soon as it
parses; rounds exhausted gives `none`. -/
def repairJsonLoop (env : PredictEnv) (ctx : ExecutionContext)
    (correctionModel : Option ModelConfig) (sessionId : String) :
    Nat → String → String → CallState → Option String × CallState
  | 0, _, _, st => (none, st)
  | roundsLeft + 1, malformedJson, _errorMessage, st =>
      let (reply, st') := callAgent env st (correctionRequest ctx correctionModel sessionId)
      match extractJsonString reply.text with
      | some repairedJson =>
          (match env.jparse repairedJson with
           | .ok _ => (some repairedJson, st')
           | .error msg => repairJsonLoop env ctx correctionModel sessionId
               roundsLeft repairedJson msg st')
      | none => repairJsonLoop env ctx correctionModel sessionId
          roundsLeft malformedJson _errorMessage st'

/-- `repairJson` (predict.ts): run the loop for
`correctionConfig.maxRounds ?? 3` rounds. -/
def repairJson (env : PredictEnv) (P : PredictConfig) (ctx : ExecutionContext)
    (sessionId : String) (malformedJson errorMessage : String)
    (st : CallState) : Option String × CallState :=
  let correctionConfig := P.correction.asConfig
  let maxRounds := correctionConfig.maxRounds.getD 3
  repairJsonLoop env ctx correctionConfig.model sessionId maxRounds
    malformedJson errorMessage st

/-- The loop of `correctFields` (predict.ts, lines 257–324): take up to
`maxFields` errors, request a patch in-session, apply it with the
configured strategy, re-validate, and either return the validated data,
abort on an empty error list, or carry the new errors into the next
round. -/
def correctFieldsLoop (env : PredictEnv) (ctx : ExecutionContext)
    (schema : Schema) (method : String) (maxFields : Nat)
    (correctionModel : Option ModelConfig) (sessionId : String) :
    Nat → JSVal → List FieldError → CallState → Option JSFields × CallState
  | 0, _, _, st => (none, st)
  | roundsLeft + 1, currentJson, currentErrors, st =>
      let errorsToFix := currentErrors.take maxFields
      if errorsToFix.isEmpty then (none, st)
      else
        let (patchReply, st') := callAgent env st (correctionRequest ctx correctionModel sessionId)
        let currentJson' :=
          if method = "jq" then
            (applyJqPatch env.jq env.jparse currentJson (extractPatch patchReply.text)).1
          else
            applyJsonPatch currentJson (extractJsonPatch env.jparse patchReply.text)
        let revalidated := tryParseResponse env.jparse (stringifyValD currentJson') schema
        if revalidated.ok && revalidated.data.isSome then
          (revalidated.data, st')
        else
          let currentErrors' := revalidated.errors.getD []
          if currentErrors'.isEmpty then (none, st')  -- zero errors but no data: abort
          else correctFieldsLoop env ctx schema method maxFields correctionModel
            sessionId roundsLeft currentJson' currentErrors' st'

/-- `correctFields` (predict.ts, lines 238–328): deep-copy the extracted
object, then run the loop for `maxRounds` rounds with the configured method
(`'json-patch'` by default) and field budget. -/
def correctFields (env : PredictEnv) (P : PredictConfig)
    (ctx : ExecutionContext) (schema : Schema) (sessionId : String)
    (json : JSFields) (initialErrors : List FieldError) (st : CallState) :
    Option JSFields × CallState :=
  let correctionConfig := P.correction.asConfig
  let method := correctionConfig.method.getD "json-patch"
  let maxFields := correctionConfig.maxFields.getD 5
  let maxRounds := correctionConfig.maxRounds.getD 3
  correctFieldsLoop env ctx schema method maxFields correctionConfig.model
    sessionId maxRounds (.obj (deepCopyFields json)) initialErrors st

/-- The `SchemaValidationError` thrown when correction fails or is disabled
(predict.ts, lines 161–176): the message joins the current parse errors,
and `correctionAttempts` is the configured `maxRounds ?? 3` (0 when
correction is disabled). -/
def mkSchemaError (P : PredictConfig) (errors : List FieldError) :
    SchemaValidationError :=
  let joined := String.intercalate "; " (errors.map fun e => e.path ++ ": " ++ e.message)
  let errorMessages := if joined = "" then "Unknown error" else joined
  let correctionAttempts :=
    match P.correction with
    | .disabled => 0
    | .config c => c.maxRounds.getD 3
    | .unset => 3
  { message := "Schema validation failed: " ++ errorMessages
    fieldErrors := errors
    correctionAttempts := correctionAttempts }

/-- The backend request `Predict.execute` opens with (predict.ts, lines
72–81): session reuse unless a fresh session was requested, per-call
model/agent override falling back to the context defaults. -/
def initialRequest (P : PredictConfig) (ctx : ExecutionContext) : AgentRequest :=
  { sessionId := if P.newSession then none else ctx.sessionId
    model := P.model.getD ctx.defaultModel
    agent := P.agent.getD ctx.defaultAgent
    timeoutSec := ctx.timeoutSec }

/-- The part of `Predict.execute` after the initial backend call and the
context's session-id update (`ctx` here is the already-updated context):
parse, JSON repair, field correction, terminal error. -/
def executeRest (env : PredictEnv) (P : PredictConfig) (schema : Schema)
    (ctx : ExecutionContext) (agentResult : AgentReply) (st : CallState) :
    Except SchemaValidationError PredictResult × CallState :=
  let parseResult := tryParseResponse env.jparse agentResult.text schema
  if h : parseResult.ok ∧ parseResult.data.isSome then
    (.ok { data := parseResult.data.get h.2, raw := agentResult.text
           sessionId := agentResult.sessionId
           model := P.model.getD ctx.defaultModel }, st)
  else
    let isJsonParseError := isJsonParseErrorCheck parseResult.errors
    -- JSON repair (reassigns parseResult only when a repaired string came back)
    let (parseResult2, st2) :=
      if P.correction.enabled && isJsonParseError then
        let rawJson := extractJsonString agentResult.text
        let firstMsg :=
          ((parseResult.errors.getD []).head?.map FieldError.message).getD "JSON parse failed"
        let (repairedResult, st') := repairJson env P ctx agentResult.sessionId
          (rawJson.getD agentResult.text) firstMsg st
        match repairedResult with
        | some repaired => (tryParseResponse env.jparse repaired schema, st')
        | none => (parseResult, st')
      else (parseResult, st)
    if h2 : parseResult2.ok ∧ parseResult2.data.isSome then
      (.ok { data := parseResult2.data.get h2.2, raw := agentResult.text
             sessionId := agentResult.sessionId
             model := P.model.getD ctx.defaultModel }, st2)
    else
      match parseResult2.errors, parseResult2.json with
      | some errs, some json =>
          if P.correction.enabled then
            match correctFields env P ctx schema agentResult.sessionId json errs st2 with
            | (some corrected, st3) =>
                (.ok { data := corrected, raw := agentResult.text
                       sessionId := agentResult.sessionId
                       model := P.model.getD ctx.defaultModel }, st3)
            | (none, st3) =>
                (.error (mkSchemaError P (parseResult2.errors.getD [])), st3)
          else (.error (mkSchemaError P (parseResult2.errors.getD [])), st2)
      | _, _ => (.error (mkSchemaError P (parseResult2.errors.getD [])), st2)

/-- `Predict.execute` (predict.ts, lines 65–176): call the backend with the
request built by `initialRequest`, record the reply's session id into the
shared context (before any parsing — the update happens even when the call
ends in a terminal error), then `executeRest`: parse; on success return;
otherwise attempt JSON repair when `isJsonParseErrorCheck` fires, then
field correction when errors and an extracted object are available, and
finally throw `SchemaValidationError`. -/
def execute (env : PredictEnv) (P : PredictConfig) (schema : Schema)
    (ctx : ExecutionContext) (st : CallState) :
    Except SchemaValidationError PredictResult × ExecutionContext × CallState :=
  let (agentResult, st₁) := callAgent env st (initialRequest P ctx)
  -- Update context with new session ID for continuity
  let ctx' := { ctx with sessionId := some agentResult.sessionId }
  let (res, st₂) := executeRest env P schema ctx' agentResult st₁
  (res, ctx', st₂)

/-! ## Pipeline (pipeline.ts)

`Pipeline.run` (lines 39–120): session control, per-step model override,
the retry loop with its error classification, step recording and checkpoint
persistence.  The unit of work (`module.forward`) is the oracle
`forward : attempt → ctx → result × ctx` (it receives the shared context by
reference and may mutate it, e.g. its `sessionId`).  `saveCheckpoint`
writes the serialized state to disk; the embedding records the sequence of
persisted states in `checkpoints`.  Wall-clock fields (`duration`,
`timestamp`, `startedAt`), logging, and the sub-pipeline runner `runSub`
(not touched by any claim) are not modelled. -/

/-- The error classes `Pipeline.run` distinguishes (`instanceof
JsonParseError` / `instanceof SchemaValidationError` / anything else). -/
inductive RunError where
  | jsonParse (message raw : String)
  | schemaValidation (e : SchemaValidationError)
  | other (message : String)

/-- `err instanceof JsonParseError`. -/
def RunError.isParse : RunError → Bool
  | .jsonParse _ _ => true
  | _ => false

/-- `err instanceof SchemaValidationError`. -/
def RunError.isSchema : RunError → Bool
  | .schemaValidation _ => true
  | _ => false

/-- `RetryConfig` (types.ts): `onParseError` is an optional boolean, read
by truthiness. -/
structure RetryConfig where
  maxAttempts : Nat
  onParseError : Bool := false

/-- `RunOptions` (types.ts). -/
structure RunOptions where
  name : Option String := none
  model : Option ModelConfig := none
  newSession : Bool := false
  retry : Option RetryConfig := none

/-- `PipelineConfig` (types.ts). -/
structure PipelineConfig where
  name : String
  defaultModel : ModelConfig
  defaultAgent : String
  checkpointDir : String
  logDir : String
  retry : Option RetryConfig := none
  timeoutSec : Option Nat := none

/-- `StepResult` (types.ts); `duration` is wall-clock time and is not
modelled. -/
structure StepResult (α : Type) where
  data : α
  stepName : String
  sessionId : String
  model : ModelConfig
  attempt : Nat

/-- `StepRecord` (types.ts); `timestamp` is wall-clock time and is not
modelled. -/
structure StepRecord (α : Type) where
  stepName : String
  result : StepResult α

/-- The parts of `BaseState` that `Pipeline.run` reads or writes
(application extension fields and `subPipelines` are untouched by `run`). -/
structure PipelineState (α : Type) where
  sessionId : String
  phase : String := ""
  opencodeSessionId : Option String := none
  steps : List (StepRecord α) := []

/-- The unit of work: `module.forward(input, this.ctx)` at a given attempt
number, returning its result and the (possibly mutated) shared context. -/
structure StepEnv (α : Type) where
  forward : Nat → ExecutionContext → Except RunError α × ExecutionContext

/-- Everything observable about one `Pipeline.run` call: the returned
`StepResult` or thrown error (`.error none` models JavaScript's
`throw undefined` when `maxAttempts` is 0 and the loop never runs), the
final state and context, the sequence of checkpoints persisted, and how
many times the unit of work ran. -/
structure RunOutcome (α : Type) where
  result : Except (Option RunError) (StepResult α)
  state : PipelineState α
  ctx : ExecutionContext
  checkpoints : List (PipelineState α)
  forwardCalls : Nat

/-- The retry loop of `Pipeline.run` (pipeline.ts, lines 63–120):
`remaining` counts the loop iterations left (`maxAttempts` at entry) and
`attempt` is the 1-based attempt number.  A success restores the original
model, records the step, persists a checkpoint and returns; a
`SchemaValidationError` breaks immediately; other errors retry while
attempts remain (parse errors only when `onParseError` opted in); after the
loop a checkpoint is persisted and the last error re-thrown. -/
def runAttempts (env : StepEnv α) (cfg : PipelineConfig) (options : RunOptions)
    (stepName : String) (retryConfig : RetryConfig)
    (originalModel : ModelConfig) :
    Nat → Nat → ExecutionContext → PipelineState α →
    List (PipelineState α) → Nat → Option RunError → RunOutcome α
  | 0, _, ctx, state, cps, calls, lastError =>
      { result := .error lastError, state := state, ctx := ctx
        checkpoints := cps ++ [state], forwardCalls := calls }
  | remaining + 1, attempt, ctx, state, cps, calls, _lastError =>
      match env.forward attempt ctx with
      | (.ok data, ctx1) =>
          -- Restore original model
          let ctx2 := { ctx1 with defaultModel := originalModel }
          let result : StepResult α :=
            { data := data, stepName := stepName
              sessionId := ctx2.sessionId.getD ""
              model := options.model.getD cfg.defaultModel
              attempt := attempt }
          let state' : PipelineState α :=
            { state with
                steps := state.steps ++ [{ stepName := stepName, result := result }]
                opencodeSessionId := ctx2.sessionId }
          { result := .ok result, state := state', ctx := ctx2
            checkpoints := cps ++ [state'], forwardCalls := calls + 1 }
      | (.error err, ctx1) =>
          let isParseError := err.isParse
          let isSchemaError := err.isSchema
          if isSchemaError then
            -- Don't retry SchemaValidationError - corrections already attempted
            { result := .error (some err), state := state, ctx := ctx1
              checkpoints := cps ++ [state], forwardCalls := calls + 1 }
          else if attempt < retryConfig.maxAttempts
              && (!isParseError || retryConfig.onParseError) then
            runAttempts env cfg options stepName retryConfig originalModel
              remaining (attempt + 1) ctx1 state cps (calls + 1) (some err)
          else
            { result := .error (some err), state := state, ctx := ctx1
              checkpoints := cps ++ [state], forwardCalls := calls + 1 }

/-- The context `Pipeline.run` hands to the unit of work: session control
(`newSession` clears the session id) followed by the per-step model
override. -/
def stepEntryCtx (options : RunOptions) (ctx : ExecutionContext) :
    ExecutionContext :=
  let ctx := if options.newSession then { ctx with sessionId := none } else ctx
  match options.model with
  | some m => { ctx with defaultModel := m }
  | none => ctx

/-- `Pipeline.run` (pipeline.ts, lines 39–120): session control and model
override (`stepEntryCtx`), then the retry loop.  `originalModel` — captured
in the source between the session control and the override — equals the
incoming context's `defaultModel`, since session control only touches the
session id. -/
def pipelineRun (env : StepEnv α) (cfg : PipelineConfig) (stepName : String)
    (options : RunOptions) (state : PipelineState α)
    (ctx : ExecutionContext) : RunOutcome α :=
  let retryConfig := options.retry.getD (cfg.retry.getD { maxAttempts := 1 })
  runAttempts env cfg options stepName retryConfig ctx.defaultModel
    retryConfig.maxAttempts 1 (stepEntryCtx options ctx) state [] 0 none

/-! ## Absence of `undefined` in a document, and deep-copy identity -/

mutual
/-- No `undefined` anywhere in the value (every document obtained from
`JSON.parse` satisfies this). -/
def JSVal.noUndef : JSVal → Bool
  | .undef => false
  | .arr items => JSList.noUndef items
  | .obj fields => JSFields.noUndef fields
  | _ => true
/-- No `undefined` among the elements, recursively. -/
def JSList.noUndef : JSList → Bool
  | .nil => true
  | .cons v tl => JSVal.noUndef v && JSList.noUndef tl
/-- No `undefined` among the member values, recursively. -/
def JSFields.noUndef : JSFields → Bool
  | .nil => true
  | .cons _ v tl => JSVal.noUndef v && JSFields.noUndef tl
end

/-! ## Concrete fixtures -/

/-- A pipeline-default model. -/
def mA : ModelConfig := ⟨"anthropic", "model-a"⟩

/-- A distinct override model. -/
def mB : ModelConfig := ⟨"anthropic", "model-b"⟩

/-- A base execution context. -/
def baseCtx : ExecutionContext :=
  { defaultModel := mA, defaultAgent := "general", timeoutSec := 300 }

/-- The `{name: string, age: number}` output schema of the spec's concrete
scenarios. -/
def schemaNameAge : Schema := [("name", ⟨.str, none⟩), ("age", ⟨.num, none⟩)]

/-- A pipeline configuration fixture. -/
def cfgTest : PipelineConfig :=
  { name := "pipe", defaultModel := mA, defaultAgent := "general"
    checkpointDir := "/tmp/checkpoints", logDir := "/tmp/logs" }

/-- A pipeline state fixture. -/
def st0 : PipelineState Nat := { sessionId := "run-1" }

/-- The concrete run refuting C3's "final field-error list": schema
`{a: string, b: string}`; reply 0 is `{}` (errors on both `a` and `b`);
the round-1 patch adds `a`; rounds 2 and 3 return no patch. -/
def envC3 : PredictEnv :=
  { backend := fun n =>
      if n = 0 then ⟨"\x7b\x7d", "s1"⟩
      else if n = 1 then ⟨"[\x7b\"op\":\"add\",\"path\":\"/a\",\"value\":\"x\"\x7d]", "s1"⟩
      else ⟨"no patch", "s1"⟩
    jparse := jsonParse
    jq := fun _ _ => none }

/-- The `{a: string, b: string}` schema of the C3 scenario. -/
def schemaC3 : Schema := [("a", ⟨.str, none⟩), ("b", ⟨.str, none⟩)]

/-- The missing-field error for `a`. -/
def aErr : FieldError :=
  ⟨"a", "Invalid input: expected string, received undefined", "string", none, none⟩

/-- The missing-field error for `b`. -/
def bErr : FieldError :=
  ⟨"b", "Invalid input: expected string, received undefined", "string", none, none⟩

/-- The always-failing backend for the C3 witness: reply 0 is `{}`, every
later reply carries no patch. -/
def envC3W : PredictEnv :=
  { backend := fun n =>
      if n = 0 then ⟨"\x7b\x7d", "s1"⟩ else ⟨"no patch", "s1"⟩
    jparse := jsonParse
    jq := fun _ _ => none }

mutual
theorem deepCopyVal_eq_self : ∀ v : JSVal, v.noUndef = true → deepCopyVal v = v
  | .null, _ => rfl
  | .bool _, _ => rfl
  | .num _, _ => rfl
  | .str _, _ => rfl
  | .arr items, h => by
      simp only [deepCopyVal]
      exact congrArg JSVal.arr (deepCopyItems_eq_self items h)
  | .obj fields, h => by
      simp only [deepCopyVal]
      exact congrArg JSVal.obj (deepCopyFields_eq_self fields h)

theorem deepCopyItems_eq_self : ∀ l : JSList, JSList.noUndef l = true → deepCopyItems l = l
  | .nil, _ => rfl
  | .cons v tl, h => by
      have h' : JSVal.noUndef v = true ∧ JSList.noUndef tl = true := by
        simpa [JSList.noUndef, Bool.and_eq_true] using h
      cases v with
      | undef => simp [JSVal.noUndef] at h'
      | null => simp only [deepCopyItems, deepCopyVal]; rw [deepCopyItems_eq_self tl h'.2]
      | bool b => simp only [deepCopyItems, deepCopyVal]; rw [deepCopyItems_eq_self tl h'.2]
      | num n => simp only [deepCopyItems, deepCopyVal]; rw [deepCopyItems_eq_self tl h'.2]
      | str s => simp only [deepCopyItems, deepCopyVal]; rw [deepCopyItems_eq_self tl h'.2]
      | arr items =>
          simp only [deepCopyItems]
          rw [deepCopyVal_eq_self (JSVal.arr items) h'.1, deepCopyItems_eq_self tl h'.2]
      | obj fields =>
          simp only [deepCopyItems]
          rw [deepCopyVal_eq_self (JSVal.obj fields) h'.1, deepCopyItems_eq_self tl h'.2]

theorem deepCopyFields_eq_self : ∀ f : JSFields, JSFields.noUndef f = true → deepCopyFields f = f
  | .nil, _ => rfl
  | .cons k v tl, h => by
      have h' : JSVal.noUndef v = true ∧ JSFields.noUndef tl = true := by
        simpa [JSFields.noUndef, Bool.and_eq_true] using h
      cases v with
      | undef => simp [JSVal.noUndef] at h'
      | null => simp only [deepCopyFields, deepCopyVal]; rw [deepCopyFields_eq_self tl h'.2]
      | bool b => simp only [deepCopyFields, deepCopyVal]; rw [deepCopyFields_eq_self tl h'.2]
      | num n => simp only [deepCopyFields, deepCopyVal]; rw [deepCopyFields_eq_self tl h'.2]
      | str s => simp only [deepCopyFields, deepCopyVal]; rw [deepCopyFields_eq_self tl h'.2]
      | arr items =>
          simp only [deepCopyFields]
          rw [deepCopyVal_eq_self (JSVal.arr items) h'.1, deepCopyFields_eq_self tl h'.2]
      | obj fields =>
          simp only [deepCopyFields]
          rw [deepCopyVal_eq_self (JSVal.obj fields) h'.1, deepCopyFields_eq_self tl h'.2]
end



/-! ## Shared parsing invariants -/

/-- Whenever `tryParseJson` reports failure it carries a nonempty error
list: the no-JSON and parse-failure branches build a singleton, and a Zod
failure converts a nonempty issue list one-to-one. -/
theorem tryParseJson_fail_errors_ne (jparse : String → Except String JSVal)
    (response : String) (schema : Schema) :
    (tryParseJson jparse response schema).ok = false →
    ∃ es, (tryParseJson jparse response schema).errors = some es ∧ es ≠ [] := by
  intro hfail
  unfold tryParseJson at hfail ⊢
  cases hex : extractJsonString response with
  | none => simp [hex]
  | some jsonStr =>
      simp only [hex] at hfail ⊢
      cases hp : jparse jsonStr with
      | error msg => simp [hp]
      | ok v =>
          simp only [hp] at hfail ⊢
          cases hz : zodSafeParse schema (convertNullToUndefined (entriesJS v)) with
          | mk issues d =>
              cases issues with
              | nil => simp [hz] at hfail
              | cons i is => simp [hz, zodErrorsToFieldErrors]

/-- Both validation-failure branches of `tryParseJson` (and the success
branch) carry the extracted object in `json` once extraction and
`JSON.parse` both succeeded. -/
theorem tryParseJson_json_of_parsed (jparse : String → Except String JSVal)
    (response : String) (schema : Schema) (jsonStr : String) (v : JSVal)
    (hex : extractJsonString response = some jsonStr)
    (hp : jparse jsonStr = .ok v) :
    (tryParseJson jparse response schema).json =
      some (convertNullToUndefined (entriesJS v)) := by
  unfold tryParseJson
  simp only [hex, hp]
  cases hz : zodSafeParse schema (convertNullToUndefined (entriesJS v)) with
  | mk issues d => cases issues <;> simp [hz]


/-! ## C1 — JSON-repair phase on unparseable replies -/

/-- **C1** (code bug).  The claim says that a backend reply with no
extractable JSON sends `Predict.execute` (correction enabled) into the
JSON-repair phase, issuing repair prompts for up to `maxRounds` rounds
before the terminal error.  The code cannot do this: `tryParseJson` tags
its extraction/parse failures only in `FieldError.message`, the
`FieldError` interface has no `code` property, and `execute` gates the
repair phase on `e.code === 'json_parse_failed' || e.code ===
'no_json_found'` — a read of a property that never exists.  Evaluating the
embedded `execute` on the spec's own scenario (bare reply `not json`,
default config, correction enabled): exactly **one** backend call is made —
no repair round trips — and the `SchemaValidationError` citing the
no-JSON-found condition is thrown immediately (with `correctionAttempts`
reported as 3 although no round ran). -/
theorem claim_C1_repair_phase_unreachable :
    (execute ⟨fun _ => ⟨"not json", "s1"⟩, jsonParse, fun _ _ => none⟩
        {} schemaNameAge baseCtx {}).2.2.n = 1 ∧
    (execute ⟨fun _ => ⟨"not json", "s1"⟩, jsonParse, fun _ _ => none⟩
        {} schemaNameAge baseCtx {}).1 =
      .error { message := "Schema validation failed: : No JSON found in response"
               fieldErrors := [⟨"", "No JSON found in response", "object", none, none⟩]
               correctionAttempts := 3 } :=
  ⟨rfl, rfl⟩

/-! ## C6 — jq patch guards -/

/-- **C6**.  A patch string matching the denylist (any `$` reference,
word-bounded `input`/`inputs`/`system`/`import`/`include`/`debug`/`error`/
`halt`, `@`-encoding builtins, backtick interpolation) or containing a
character outside the allow-list class is rejected by `applyJqPatch`: the
input object is returned unchanged and the `jq` subprocess is never
invoked, whatever the subprocess oracle would do. -/
theorem claim_C6_jq_guard_rejects (jq : String → String → Option String)
    (jparse : String → Except String JSVal) (obj : JSVal) (patch : String)
    (h : matchesUnsafePattern patch = true ∨ matchesSafePattern patch = false) :
    applyJqPatch jq jparse obj patch = (obj, false) := by
  unfold applyJqPatch
  rcases h with h | h
  · simp [h]
  · cases hu : matchesUnsafePattern patch <;> simp [hu, h]

/-- Witness for C6: the spec's scenario patch `.foo = $ENV.SECRET` trips
the `$` denylist and is rejected even when the `jq` oracle would happily
return output. -/
theorem claim_C6_witness :
    (matchesUnsafePattern ".foo = $ENV.SECRET" = true ∨
      matchesSafePattern ".foo = $ENV.SECRET" = false) ∧
    applyJqPatch (fun _ _ => some "\x7b\"foo\":2\x7d") jsonParse
        (.obj (.cons "foo" (.num 1) .nil)) ".foo = $ENV.SECRET" =
      (.obj (.cons "foo" (.num 1) .nil), false) :=
  ⟨Or.inl rfl,
   claim_C6_jq_guard_rejects _ _ _ _ (Or.inl rfl)⟩

/-! ## C10 — applyJsonPatch purity / empty patch -/

/-- **C10**.  `applyJsonPatch` operates on a deep copy (the embedding is
pure, so the input is never mutated by construction); the observable
content of the claim is that the deep copy is faithful: applying the empty
operation list to any `undefined`-free document (every document obtained
from `JSON.parse` is) returns a structurally equal object. -/
theorem claim_C10_empty_patch_id (fields : JSFields)
    (h : JSFields.noUndef fields = true) :
    applyJsonPatch (.obj fields) [] = .obj fields := by
  unfold applyJsonPatch
  simp only [List.foldl_nil, deepCopyVal]
  exact congrArg JSVal.obj (deepCopyFields_eq_self fields h)

/-- Witness for C10 at a nested concrete document. -/
theorem claim_C10_witness :
    JSFields.noUndef (.cons "a" (.num 1) (.cons "b" (.arr (.cons .null (.cons (.obj (.cons "c" (.str "x") .nil)) .nil))) .nil)) = true ∧
    applyJsonPatch (.obj (.cons "a" (.num 1) (.cons "b" (.arr (.cons .null (.cons (.obj (.cons "c" (.str "x") .nil)) .nil))) .nil))) [] =
      .obj (.cons "a" (.num 1) (.cons "b" (.arr (.cons .null (.cons (.obj (.cons "c" (.str "x") .nil)) .nil))) .nil)) :=
  ⟨rfl, claim_C10_empty_patch_id _ rfl⟩

/-! ## C2 — prototype-pollution guards of the JSON Patch strategy -/

/-- `setValueAtPath` is the identity when the first path segment is
blocked. -/
theorem setValueAtPath_blocked_head (st : JSVal) (part : String)
    (rest : List String) (value : JSVal) (h : segBlocked part = true) :
    setValueAtPath st (part :: rest) value = st := by
  cases rest <;> simp [setValueAtPath, h]

/-- `removeValueAtPath` is the identity when the first path segment is
blocked. -/
theorem removeValueAtPath_blocked_head (st : JSVal) (part : String)
    (rest : List String) (h : segBlocked part = true) :
    removeValueAtPath st (part :: rest) = st := by
  cases rest <;> simp [removeValueAtPath, h]

/-- **C2** (amended).  As amended: an `add`/`replace`/`remove`/`test`
operation whose (unescaped) path begins with a denylisted or malformed
segment performs no mutation and does not throw; the other operations in
the same list still apply exactly as they would without it; and the spec's
scenario — a patch with path `/__proto__/polluted` — leaves the target
object unmodified.  (The original claim — *any* operation containing a
disallowed segment anywhere performs no mutation — is refuted by
`claim_C2_counterexample`: intermediate containers along the safe prefix
of the path are created before the disallowed segment is checked.) -/
theorem claim_C2_blocked_segment_voids_op :
    (∀ (st : JSVal) (op : JsonPatchOperation) (part : String) (rest : List String),
        op.op = "add" ∨ op.op = "replace" ∨ op.op = "remove" ∨ op.op = "test" →
        pathSegments op.path = part :: rest →
        segBlocked part = true →
        patchStep st op = st) ∧
    (∀ (v : JSVal) (ops1 ops2 : List JsonPatchOperation)
        (op : JsonPatchOperation) (part : String) (rest : List String),
        op.op = "add" ∨ op.op = "replace" ∨ op.op = "remove" ∨ op.op = "test" →
        pathSegments op.path = part :: rest →
        segBlocked part = true →
        applyJsonPatch v (ops1 ++ op :: ops2) = applyJsonPatch v (ops1 ++ ops2)) ∧
    applyJsonPatch (.obj (.cons "a" (.num 1) .nil))
        [{ op := "add", path := "/__proto__/polluted", value := some (.str "bad") }] =
      .obj (.cons "a" (.num 1) .nil) := by
  have step : ∀ (st : JSVal) (op : JsonPatchOperation) (part : String) (rest : List String),
      op.op = "add" ∨ op.op = "replace" ∨ op.op = "remove" ∨ op.op = "test" →
      pathSegments op.path = part :: rest →
      segBlocked part = true →
      patchStep st op = st := by
    intro st op part rest hop hpath hseg
    rcases hop with hop | hop | hop | hop <;>
      simp [patchStep, hop, hpath, setValueAtPath_blocked_head _ _ _ _ hseg,
        removeValueAtPath_blocked_head _ _ _ hseg]
  refine ⟨step, ?_, rfl⟩
  intro v ops1 ops2 op part rest hop hpath hseg
  unfold applyJsonPatch
  rw [List.foldl_append, List.foldl_append, List.foldl_cons,
    step _ op part rest hop hpath hseg]

/-- Witness for C2 (amended), at concrete inputs: a blocked `remove` on
`/__proto__` is a no-op, a patch list around it applies as if it were
absent, and the scenario conjunct. -/
theorem claim_C2_witness :
    patchStep (.obj (.cons "x" (.num 7) .nil))
        { op := "remove", path := "/__proto__" } = .obj (.cons "x" (.num 7) .nil) ∧
    applyJsonPatch (.obj .nil)
        ([{ op := "add", path := "/k", value := some (.num 2) }] ++
          { op := "remove", path := "/__proto__" : JsonPatchOperation } ::
          [{ op := "add", path := "/m", value := some (.num 3) }]) =
      applyJsonPatch (.obj .nil)
        ([{ op := "add", path := "/k", value := some (.num 2) }] ++
          [{ op := "add", path := "/m", value := some (.num 3) }]) :=
  ⟨claim_C2_blocked_segment_voids_op.1 _ _ "__proto__" []
      (Or.inr (Or.inr (Or.inl rfl))) rfl rfl,
   claim_C2_blocked_segment_voids_op.2.1 _ _ _ _ "__proto__" []
      (Or.inr (Or.inr (Or.inl rfl))) rfl rfl⟩

/-- Counterexample for C2 as stated: the operation
`{op: "add", path: "/a/__proto__", value: 1}` contains the disallowed
segment `__proto__`, yet applying it to `{}` **does** mutate the document —
the safe prefix `/a` is materialized as an empty intermediate container
before the disallowed final segment is checked — so "an operation
containing a disallowed segment performs no mutation" is false. -/
theorem claim_C2_counterexample :
    applyJsonPatch (.obj .nil)
        [{ op := "add", path := "/a/__proto__", value := some (.num 1) }] =
      .obj (.cons "a" (.obj .nil) .nil) ∧
    JSVal.obj (.cons "a" (.obj .nil) .nil) ≠ .obj .nil :=
  ⟨rfl, fun h => by injection h with h'; injection h'⟩

/-! ## C8 — the `TryParseResult` invariant -/

/-- **C8** (amended).  As amended: a failing `tryParseJson` always carries
at least one `FieldError`, and `json` is present whenever extraction *and*
`JSON.parse` both succeeded, even if schema validation then failed.  (As
originally stated — `json` present whenever extraction of a JSON substring
succeeded — the claim is refuted by `claim_C8_counterexample`: when the
extracted text fails `JSON.parse`, the result carries no `json`.) -/
theorem claim_C8_parse_result_invariant (jparse : String → Except String JSVal)
    (response : String) (schema : Schema) :
    ((tryParseJson jparse response schema).ok = false →
      ∃ es, (tryParseJson jparse response schema).errors = some es ∧ es ≠ []) ∧
    (∀ jsonStr v, extractJsonString response = some jsonStr →
      jparse jsonStr = .ok v →
      (tryParseJson jparse response schema).json ≠ none) := by
  refine ⟨tryParseJson_fail_errors_ne jparse response schema, ?_⟩
  intro jsonStr v hex hp
  rw [tryParseJson_json_of_parsed jparse response schema jsonStr v hex hp]
  simp

/-- Witness for C8 (amended): the fail branch at an unparseable reply, the
`json` branch at a reply whose object fails validation. -/
theorem claim_C8_witness :
    (∃ es, (tryParseJson jsonParse "\x7bbad\x7d" schemaNameAge).errors = some es ∧ es ≠ []) ∧
    (tryParseJson jsonParse "\x7b\"name\":\"jo\"\x7d" schemaNameAge).json ≠ none :=
  ⟨(claim_C8_parse_result_invariant jsonParse "\x7bbad\x7d" schemaNameAge).1 rfl,
   (claim_C8_parse_result_invariant jsonParse "\x7b\"name\":\"jo\"\x7d" schemaNameAge).2
     "\x7b\"name\":\"jo\"\x7d" (.obj (.cons "name" (.str "jo") .nil)) rfl rfl⟩

/-- Counterexample for C8 as stated: for the response `{bad}` extraction
succeeds (`extractJsonString` returns the substring) but `JSON.parse`
fails, and the result — though failing — carries **no** `json`. -/
theorem claim_C8_counterexample :
    extractJsonString "\x7bbad\x7d" = some "\x7bbad\x7d" ∧
    (tryParseJson jsonParse "\x7bbad\x7d" schemaNameAge).ok = false ∧
    (tryParseJson jsonParse "\x7bbad\x7d" schemaNameAge).json = none :=
  ⟨rfl, rfl, rfl⟩

/-! ## C7 — null-to-absent conversion -/

/-- After `convertNullToUndefined` no member of the object is `null` (at
any key: `null` members are dropped, and the kept members' values are
rebuilt from non-`null` cases). -/
theorem convertNull_lookup_ne_null :
    ∀ (fields : JSFields) (k : String),
      (convertNullToUndefined fields).lookupJS k ≠ .null
  | .nil, k => by simp [convertNullToUndefined, JSFields.lookupJS]
  | .cons k' v tl, k => by
      cases v with
      | null => simpa [convertNullToUndefined] using convertNull_lookup_ne_null tl k
      | undef =>
          simp only [convertNullToUndefined, JSFields.lookupJS]
          split
          · simp
          · exact convertNull_lookup_ne_null tl k
      | bool b =>
          simp only [convertNullToUndefined, JSFields.lookupJS]
          split
          · simp
          · exact convertNull_lookup_ne_null tl k
      | num n =>
          simp only [convertNullToUndefined, JSFields.lookupJS]
          split
          · simp
          · exact convertNull_lookup_ne_null tl k
      | str s =>
          simp only [convertNullToUndefined, JSFields.lookupJS]
          split
          · simp
          · exact convertNull_lookup_ne_null tl k
      | arr items =>
          simp only [convertNullToUndefined, JSFields.lookupJS]
          split
          · simp
          · exact convertNull_lookup_ne_null tl k
      | obj f =>
          simp only [convertNullToUndefined, JSFields.lookupJS]
          split
          · simp
          · exact convertNull_lookup_ne_null tl k

/-- Array members are mapped elementwise by `convArrItem`, which fixes
`null`. -/
theorem convertNull_array_member :
    ∀ (fields : JSFields) (k : String) (items : JSList),
      fields.lookupJS k = .arr items →
      (convertNullToUndefined fields).lookupJS k = .arr (convItems items)
  | .nil, k, items => by intro h; simp [JSFields.lookupJS] at h
  | .cons k' v tl, k, items => by
      intro h
      by_cases hk : k' = k
      · subst hk
        simp only [JSFields.lookupJS, if_pos rfl] at h
        subst h
        simp [convertNullToUndefined, JSFields.lookupJS]
      · simp only [JSFields.lookupJS, if_neg hk] at h
        cases v with
        | null =>
            simpa [convertNullToUndefined] using convertNull_array_member tl k items h
        | undef =>
            simpa [convertNullToUndefined, JSFields.lookupJS, hk] using
              convertNull_array_member tl k items h
        | bool b =>
            simpa [convertNullToUndefined, JSFields.lookupJS, hk] using
              convertNull_array_member tl k items h
        | num n =>
            simpa [convertNullToUndefined, JSFields.lookupJS, hk] using
              convertNull_array_member tl k items h
        | str s =>
            simpa [convertNullToUndefined, JSFields.lookupJS, hk] using
              convertNull_array_member tl k items h
        | arr l =>
            simpa [convertNullToUndefined, JSFields.lookupJS, hk] using
              convertNull_array_member tl k items h
        | obj f =>
            simpa [convertNullToUndefined, JSFields.lookupJS, hk] using
              convertNull_array_member tl k items h

/-- `convItems` preserves `null` elements in their positional slots. -/
theorem convItems_preserves_null :
    ∀ (items : JSList) (i : Nat), items.getJS i = .null →
      (convItems items).getJS i = .null
  | .nil, i => by intro h; simp [JSList.getJS] at h
  | .cons v tl, 0 => by
      intro h
      simp only [JSList.getJS] at h
      subst h
      simp [convItems, convArrItem, JSList.getJS]
  | .cons v tl, n + 1 => by
      intro h
      simp only [JSList.getJS] at h
      simpa [convItems, JSList.getJS] using convItems_preserves_null tl n h

/-- **C7**.  Validating `{"opt": null, "req": "x"}` against
`{opt: optional string, req: string}` succeeds with a result that has no
`opt` key; generally the converted object never carries a `null` member
(at any key), while an array-valued member is mapped elementwise with
`null` elements preserved in their positional slots. -/
theorem claim_C7_null_to_absent :
    (tryParseJson jsonParse "\x7b\"opt\": null, \"req\": \"x\"\x7d"
        [("opt", ⟨.optional .str, none⟩), ("req", ⟨.str, none⟩)] =
      { ok := true, data := some (.cons "req" (.str "x") .nil),
        errors := none, json := some (.cons "req" (.str "x") .nil) }) ∧
    (∀ (fields : JSFields) (k : String),
        (convertNullToUndefined fields).lookupJS k ≠ .null) ∧
    (∀ (fields : JSFields) (k : String) (items : JSList),
        fields.lookupJS k = .arr items →
        (convertNullToUndefined fields).lookupJS k = .arr (convItems items) ∧
        ∀ i : Nat, items.getJS i = .null → (convItems items).getJS i = .null) :=
  ⟨rfl, convertNull_lookup_ne_null, fun fields k items h =>
    ⟨convertNull_array_member fields k items h, convItems_preserves_null items⟩⟩

/-- Witness for C7 at a concrete object with an array member holding a
`null` slot. -/
theorem claim_C7_witness :
    (convertNullToUndefined (.cons "xs" (.arr (.cons .null (.cons (.num 1) .nil))) .nil)).lookupJS "xs" =
      .arr (convItems (.cons .null (.cons (.num 1) .nil))) ∧
    (convItems (.cons .null (.cons (.num 1) .nil))).getJS 0 = .null ∧
    (convertNullToUndefined (.cons "opt" .null .nil)).lookupJS "opt" ≠ .null :=
  ⟨(claim_C7_null_to_absent.2.2
      (.cons "xs" (.arr (.cons .null (.cons (.num 1) .nil))) .nil) "xs"
      (.cons .null (.cons (.num 1) .nil)) rfl).1,
   (claim_C7_null_to_absent.2.2
      (.cons "xs" (.arr (.cons .null (.cons (.num 1) .nil))) .nil) "xs"
      (.cons .null (.cons (.num 1) .nil)) rfl).2 0 rfl,
   claim_C7_null_to_absent.2.1 (.cons "opt" .null .nil) "opt"⟩

/-! ## C4 / C5 — Pipeline retry and model-override behaviour -/



/-- **C4**.  A unit of work that throws `SchemaValidationError` on attempt
1 is never retried, whatever `maxAttempts` is configured (as long as the
loop runs at all): `Pipeline.run` performs exactly one forward call,
persists exactly one checkpoint (of the unchanged state), and re-raises
the error. -/
theorem claim_C4_schema_error_never_retried {α} (env : StepEnv α)
    (cfg : PipelineConfig) (stepName : String) (options : RunOptions)
    (state : PipelineState α) (ctx : ExecutionContext)
    (e : SchemaValidationError) (ctx' : ExecutionContext)
    (hmax : 1 ≤ (options.retry.getD (cfg.retry.getD { maxAttempts := 1 })).maxAttempts)
    (h : env.forward 1 (stepEntryCtx options ctx) =
        (.error (.schemaValidation e), ctx')) :
    (pipelineRun env cfg stepName options state ctx).forwardCalls = 1 ∧
    (pipelineRun env cfg stepName options state ctx).checkpoints = [state] ∧
    (pipelineRun env cfg stepName options state ctx).state = state ∧
    (pipelineRun env cfg stepName options state ctx).result =
      .error (some (.schemaValidation e)) := by
  unfold pipelineRun
  cases hn : (options.retry.getD (cfg.retry.getD { maxAttempts := 1 })).maxAttempts with
  | zero => omega
  | succ k =>
      simp only [hn, runAttempts, h]
      simp [RunError.isSchema]

/-- Witness for C4: `maxAttempts: 3`, schema error on attempt 1 — one
call, one checkpoint, error re-raised. -/
theorem claim_C4_witness :
    (pipelineRun (⟨fun _ c => (.error (.schemaValidation ⟨"Schema validation failed: a: Invalid input", [⟨"a", "Invalid input", "string", none, none⟩], 3⟩), c)⟩ : StepEnv Nat)
        cfgTest "step" { retry := some ⟨3, false⟩ } st0 baseCtx).forwardCalls = 1 ∧
    (pipelineRun (⟨fun _ c => (.error (.schemaValidation ⟨"Schema validation failed: a: Invalid input", [⟨"a", "Invalid input", "string", none, none⟩], 3⟩), c)⟩ : StepEnv Nat)
        cfgTest "step" { retry := some ⟨3, false⟩ } st0 baseCtx).checkpoints = [st0] ∧
    (pipelineRun (⟨fun _ c => (.error (.schemaValidation ⟨"Schema validation failed: a: Invalid input", [⟨"a", "Invalid input", "string", none, none⟩], 3⟩), c)⟩ : StepEnv Nat)
        cfgTest "step" { retry := some ⟨3, false⟩ } st0 baseCtx).state = st0 ∧
    (pipelineRun (⟨fun _ c => (.error (.schemaValidation ⟨"Schema validation failed: a: Invalid input", [⟨"a", "Invalid input", "string", none, none⟩], 3⟩), c)⟩ : StepEnv Nat)
        cfgTest "step" { retry := some ⟨3, false⟩ } st0 baseCtx).result =
      .error (some (.schemaValidation ⟨"Schema validation failed: a: Invalid input", [⟨"a", "Invalid input", "string", none, none⟩], 3⟩)) :=
  claim_C4_schema_error_never_retried _ _ _ _ _ _ _ _ (by decide) rfl

/-- The retry loop hands back a context whose `defaultModel` is the
captured original whenever it returns a `StepResult` (the restore happens
in the success arm before the result is built). -/
theorem runAttempts_ok_model {α} (env : StepEnv α) (cfg : PipelineConfig)
    (options : RunOptions) (stepName : String) (rc : RetryConfig)
    (om : ModelConfig) :
    ∀ (remaining attempt : Nat) (ctx : ExecutionContext)
      (state : PipelineState α) (cps : List (PipelineState α)) (calls : Nat)
      (lastE : Option RunError) (r : StepResult α),
      (runAttempts env cfg options stepName rc om remaining attempt ctx state
          cps calls lastE).result = .ok r →
      (runAttempts env cfg options stepName rc om remaining attempt ctx state
          cps calls lastE).ctx.defaultModel = om := by
  intro remaining
  induction remaining with
  | zero => intro attempt ctx state cps calls lastE r h; simp [runAttempts] at h
  | succ rem ih =>
      intro attempt ctx state cps calls lastE r h
      simp only [runAttempts] at h ⊢
      cases hf : env.forward attempt ctx with
      | mk res ctx1 =>
          cases res with
          | ok d => simp [hf] at h ⊢
          | error err =>
              simp only [hf] at h ⊢
              cases hs : err.isSchema with
              | true => simp [hs] at h
              | false =>
                  simp only [hs, Bool.false_eq_true, if_false] at h ⊢
                  cases hr : (decide (attempt < rc.maxAttempts) && (!err.isParse || rc.onParseError)) with
                  | true =>
                      simp only [hr, if_true] at h ⊢
                      exact ih _ _ _ _ _ _ _ h
                  | false => simp [hr] at h

/-- **C5** (amended).  As amended: when the step *succeeds*,
`Pipeline.run` hands back the execution context with `defaultModel`
restored to the pipeline default it had before the step, so an override
does not leak into subsequent steps.  (As originally stated — restored on
success *or failure* — the claim is refuted by `claim_C5_counterexample`:
the restore sits in the success path only, so a step that ends in a thrown
error leaves the override in place.) -/
theorem claim_C5_model_restored_on_success {α} (env : StepEnv α)
    (cfg : PipelineConfig) (stepName : String) (options : RunOptions)
    (state : PipelineState α) (ctx : ExecutionContext) (r : StepResult α)
    (h : (pipelineRun env cfg stepName options state ctx).result = .ok r) :
    (pipelineRun env cfg stepName options state ctx).ctx.defaultModel =
      ctx.defaultModel := by
  unfold pipelineRun at h ⊢
  exact runAttempts_ok_model env cfg options stepName _ _ _ _ _ _ _ _ _ r h

/-- Witness for C5 (amended): a step with override `mB` succeeds; the
context comes back with the pipeline default `mA`. -/
theorem claim_C5_witness :
    (pipelineRun (⟨fun _ c => (.ok 42, c)⟩ : StepEnv Nat) cfgTest "step"
        { model := some mB } st0 baseCtx).ctx.defaultModel =
      baseCtx.defaultModel :=
  claim_C5_model_restored_on_success _ _ _ _ _ _
    { data := 42, stepName := "step", sessionId := "", model := mB, attempt := 1 }
    rfl

/-- Counterexample for C5 as stated: with override `mB` and a unit of work
that throws a plain error, `Pipeline.run` re-raises after its final
attempt with the context still carrying `mB` — the override is *not*
restored on the failure path ("whether the step succeeds or ends in a
thrown error" is false). -/
theorem claim_C5_counterexample :
    (pipelineRun (⟨fun _ c => (.error (.other "boom"), c)⟩ : StepEnv Nat)
        cfgTest "step" { model := some mB } st0 baseCtx).result =
      .error (some (.other "boom")) ∧
    (pipelineRun (⟨fun _ c => (.error (.other "boom"), c)⟩ : StepEnv Nat)
        cfgTest "step" { model := some mB } st0 baseCtx).ctx.defaultModel = mB ∧
    mB ≠ baseCtx.defaultModel :=
  ⟨rfl, rfl, by decide⟩

/-! ## C9 — session continuity across sequential Predict calls -/

/-- The repair loop only ever appends to the request trace. -/
theorem repairJsonLoop_trace (env : PredictEnv) (ctx : ExecutionContext)
    (cm : Option ModelConfig) (sid : String) :
    ∀ (rounds : Nat) (m e : String) (st : CallState),
      ∃ ext, (repairJsonLoop env ctx cm sid rounds m e st).2.trace =
        st.trace ++ ext := by
  intro rounds
  induction rounds with
  | zero => intro m e st; exact ⟨[], by simp [repairJsonLoop]⟩
  | succ r ih =>
      intro m e st
      simp only [repairJsonLoop, callAgent]
      cases hx : extractJsonString (env.backend st.n).text with
      | none =>
          obtain ⟨ext, hext⟩ := ih m e
            { n := st.n + 1, trace := st.trace ++ [correctionRequest ctx cm sid] }
          exact ⟨correctionRequest ctx cm sid :: ext, by simp [hext]⟩
      | some rep =>
          cases hp : env.jparse rep with
          | ok v => exact ⟨[correctionRequest ctx cm sid], by simp [hp]⟩
          | error msg =>
              obtain ⟨ext, hext⟩ := ih rep msg
                { n := st.n + 1, trace := st.trace ++ [correctionRequest ctx cm sid] }
              exact ⟨correctionRequest ctx cm sid :: ext, by simp [hp, hext]⟩

/-- The field-correction loop only ever appends to the request trace. -/
theorem correctFieldsLoop_trace (env : PredictEnv) (ctx : ExecutionContext)
    (schema : Schema) (method : String) (maxFields : Nat)
    (cm : Option ModelConfig) (sid : String) :
    ∀ (rounds : Nat) (j : JSVal) (errs : List FieldError) (st : CallState),
      ∃ ext, (correctFieldsLoop env ctx schema method maxFields cm sid rounds
          j errs st).2.trace = st.trace ++ ext := by
  intro rounds
  induction rounds with
  | zero => intro j errs st; exact ⟨[], by simp [correctFieldsLoop]⟩
  | succ r ih =>
      intro j errs st
      simp only [correctFieldsLoop, callAgent]
      by_cases he : (errs.take maxFields).isEmpty
      · exact ⟨[], by simp [he]⟩
      · simp only [he, Bool.false_eq_true, if_false]
        set st' : CallState :=
          { n := st.n + 1, trace := st.trace ++ [correctionRequest ctx cm sid] } with hst'
        set j' : JSVal :=
          (if method = "jq" then
            (applyJqPatch env.jq env.jparse j (extractPatch (env.backend st.n).text)).1
          else applyJsonPatch j (extractJsonPatch env.jparse (env.backend st.n).text)) with hj'
        by_cases hok : (tryParseResponse env.jparse (stringifyValD j') schema).ok
            && (tryParseResponse env.jparse (stringifyValD j') schema).data.isSome
        · exact ⟨[correctionRequest ctx cm sid], by simp [hok]⟩
        · simp only [hok, Bool.false_eq_true, if_false]
          by_cases hce : ((tryParseResponse env.jparse (stringifyValD j') schema).errors.getD []).isEmpty
          · exact ⟨[correctionRequest ctx cm sid], by simp [hce]⟩
          · simp only [hce, Bool.false_eq_true, if_false]
            obtain ⟨ext, hext⟩ := ih j'
              ((tryParseResponse env.jparse (stringifyValD j') schema).errors.getD []) st'
            exact ⟨correctionRequest ctx cm sid :: ext, by simp [hext, hst']⟩

/-- The repair gate of `Predict.execute` is constantly false: it tests
`e.code`, a property the `FieldError` interface does not declare and no
producer sets (the root cause of C1). -/
theorem isJsonParseErrorCheck_false :
    ∀ errors : Option (List FieldError), isJsonParseErrorCheck errors = false := by
  intro errors
  cases errors with
  | none => rfl
  | some es => simp [isJsonParseErrorCheck, fieldErrorCode]

/-- `executeRest` only ever appends to the request trace. -/
theorem executeRest_trace (env : PredictEnv) (P : PredictConfig)
    (schema : Schema) (ctx : ExecutionContext) (reply : AgentReply)
    (st : CallState) :
    ∃ ext, (executeRest env P schema ctx reply st).2.trace =
      st.trace ++ ext := by
  unfold executeRest
  dsimp only
  split
  · exact ⟨[], by simp⟩
  · simp only [isJsonParseErrorCheck_false, Bool.and_false, Bool.false_eq_true,
      if_false]
    split
    · exact ⟨[], by simp⟩
    · split
      · -- errors and json both present
        rename_i errsV jsonV heqE heqJ
        split
        · -- correction enabled
          unfold correctFields
          cases hcf : correctFieldsLoop env ctx schema
              (P.correction.asConfig.method.getD "json-patch")
              (P.correction.asConfig.maxFields.getD 5)
              P.correction.asConfig.model reply.sessionId
              (P.correction.asConfig.maxRounds.getD 3)
              (.obj (deepCopyFields jsonV)) errsV st with
          | mk o st3 =>
              obtain ⟨ext, hext⟩ := correctFieldsLoop_trace env ctx schema
                (P.correction.asConfig.method.getD "json-patch")
                (P.correction.asConfig.maxFields.getD 5)
                P.correction.asConfig.model reply.sessionId
                (P.correction.asConfig.maxRounds.getD 3)
                (.obj (deepCopyFields jsonV)) errsV st
              rw [hcf] at hext
              cases o <;> exact ⟨ext, hext⟩
        · exact ⟨[], by simp⟩
      · exact ⟨[], by simp⟩

/-- `execute` records the `initialRequest` first and then only appends. -/
theorem execute_trace (env : PredictEnv) (P : PredictConfig)
    (schema : Schema) (ctx : ExecutionContext) (st : CallState) :
    ∃ ext, (execute env P schema ctx st).2.2.trace =
      st.trace ++ initialRequest P ctx :: ext := by
  unfold execute
  obtain ⟨ext, hext⟩ := executeRest_trace env P schema
    { ctx with sessionId := some (env.backend st.n).sessionId }
    (env.backend st.n)
    { n := st.n + 1, trace := st.trace ++ [initialRequest P ctx] }
  refine ⟨ext, ?_⟩
  simp only [callAgent]
  cases hE : executeRest env P schema
      { ctx with sessionId := some (env.backend st.n).sessionId }
      (env.backend st.n)
      { n := st.n + 1, trace := st.trace ++ [initialRequest P ctx] } with
  | mk res st₂ =>
      rw [hE] at hext
      rw [hext]
      simp

/-- **C9**.  Two sequential `Predict.execute` calls sharing one execution
context: when the first call's backend reply reports session id `s1`, the
shared context's session id equals `s1` after the first call (the update
happens before parsing, so this holds however the first call ends), and
the second call — invoked without `newSession` — sends session id `s1` in
its first backend request. -/
theorem claim_C9_session_continuity (env : PredictEnv)
    (P1 P2 : PredictConfig) (sch1 sch2 : Schema) (ctx : ExecutionContext)
    (st st' : CallState)
    (h1 : (env.backend st.n).sessionId = "s1")
    (h2 : P2.newSession = false) :
    (execute env P1 sch1 ctx st).2.1.sessionId = some "s1" ∧
    ((execute env P2 sch2 (execute env P1 sch1 ctx st).2.1 st').2.2.trace.drop
        st'.trace.length).head? =
      some (initialRequest P2 (execute env P1 sch1 ctx st).2.1) ∧
    (initialRequest P2 (execute env P1 sch1 ctx st).2.1).sessionId =
      some "s1" := by
  have hctx : (execute env P1 sch1 ctx st).2.1 =
      { ctx with sessionId := some (env.backend st.n).sessionId } := rfl
  have hsid : (execute env P1 sch1 ctx st).2.1.sessionId = some "s1" := by
    rw [hctx, h1]
  refine ⟨hsid, ?_, ?_⟩
  · obtain ⟨ext, hext⟩ := execute_trace env P2 sch2
      (execute env P1 sch1 ctx st).2.1 st'
    rw [hext, List.drop_left]
    rfl
  · simp [initialRequest, h2, hsid]

/-- Witness for C9: a concrete run — schema-less signature, first reply
`{}` with session `s1` — the context carries `s1` and the second request
sends it. -/
theorem claim_C9_witness :
    (execute ⟨fun n => if n = 0 then ⟨"\x7b\x7d", "s1"⟩ else ⟨"\x7b\x7d", "s2"⟩, jsonParse, fun _ _ => none⟩
        {} [] baseCtx {}).2.1.sessionId = some "s1" ∧
    ((execute ⟨fun n => if n = 0 then ⟨"\x7b\x7d", "s1"⟩ else ⟨"\x7b\x7d", "s2"⟩, jsonParse, fun _ _ => none⟩
        {} []
        (execute ⟨fun n => if n = 0 then ⟨"\x7b\x7d", "s1"⟩ else ⟨"\x7b\x7d", "s2"⟩, jsonParse, fun _ _ => none⟩
          {} [] baseCtx {}).2.1
        ⟨1, []⟩).2.2.trace.drop 0).head? =
      some (initialRequest {}
        (execute ⟨fun n => if n = 0 then ⟨"\x7b\x7d", "s1"⟩ else ⟨"\x7b\x7d", "s2"⟩, jsonParse, fun _ _ => none⟩
          {} [] baseCtx {}).2.1) ∧
    (initialRequest {}
        (execute ⟨fun n => if n = 0 then ⟨"\x7b\x7d", "s1"⟩ else ⟨"\x7b\x7d", "s2"⟩, jsonParse, fun _ _ => none⟩
          {} [] baseCtx {}).2.1).sessionId = some "s1" :=
  claim_C9_session_continuity _ {} {} [] [] baseCtx {} ⟨1, []⟩ rfl rfl

/-! ## C3 — exhaustion of the field-correction loop -/

mutual
theorem deepCopyVal_idem : ∀ v : JSVal, deepCopyVal (deepCopyVal v) = deepCopyVal v
  | .null => rfl
  | .undef => rfl
  | .bool _ => rfl
  | .num _ => rfl
  | .str _ => rfl
  | .arr items => by
      simp only [deepCopyVal]
      exact congrArg JSVal.arr (deepCopyItems_idem items)
  | .obj fields => by
      simp only [deepCopyVal]
      exact congrArg JSVal.obj (deepCopyFields_idem fields)
theorem deepCopyItems_idem : ∀ l : JSList, deepCopyItems (deepCopyItems l) = deepCopyItems l
  | .nil => rfl
  | .cons .undef tl => by
      simp only [deepCopyItems, deepCopyVal]
      exact congrArg _ (deepCopyItems_idem tl)
  | .cons .null tl => by
      simp only [deepCopyItems, deepCopyVal]
      exact congrArg _ (deepCopyItems_idem tl)
  | .cons (.bool b) tl => by
      simp only [deepCopyItems, deepCopyVal]
      exact congrArg _ (deepCopyItems_idem tl)
  | .cons (.num n) tl => by
      simp only [deepCopyItems, deepCopyVal]
      exact congrArg _ (deepCopyItems_idem tl)
  | .cons (.str s) tl => by
      simp only [deepCopyItems, deepCopyVal]
      exact congrArg _ (deepCopyItems_idem tl)
  | .cons (.arr items) tl => by
      simp only [deepCopyItems, deepCopyVal]
      rw [deepCopyItems_idem items, deepCopyItems_idem tl]
  | .cons (.obj fields) tl => by
      simp only [deepCopyItems, deepCopyVal]
      rw [deepCopyFields_idem fields, deepCopyItems_idem tl]
theorem deepCopyFields_idem : ∀ f : JSFields, deepCopyFields (deepCopyFields f) = deepCopyFields f
  | .nil => rfl
  | .cons k .undef tl => by
      simp only [deepCopyFields]
      exact deepCopyFields_idem tl
  | .cons k .null tl => by
      simp only [deepCopyFields, deepCopyVal]
      exact congrArg _ (deepCopyFields_idem tl)
  | .cons k (.bool b) tl => by
      simp only [deepCopyFields, deepCopyVal]
      exact congrArg _ (deepCopyFields_idem tl)
  | .cons k (.num n) tl => by
      simp only [deepCopyFields, deepCopyVal]
      exact congrArg _ (deepCopyFields_idem tl)
  | .cons k (.str s) tl => by
      simp only [deepCopyFields, deepCopyVal]
      exact congrArg _ (deepCopyFields_idem tl)
  | .cons k (.arr items) tl => by
      simp only [deepCopyFields, deepCopyVal]
      rw [deepCopyItems_idem items, deepCopyFields_idem tl]
  | .cons k (.obj fields) tl => by
      simp only [deepCopyFields, deepCopyVal]
      rw [deepCopyFields_idem fields, deepCopyFields_idem tl]
end

/-- Applying the empty operation list is exactly the deep copy. -/
theorem applyJsonPatch_nil (c : JSVal) : applyJsonPatch c [] = deepCopyVal c := by
  simp [applyJsonPatch]

/-- The field-correction loop under a revalidation that always fails and
patch replies that carry no operations: every round makes exactly one
backend call (a patch request), the document is stuck at the fixed point
`c` of the deep copy, and after `rounds` rounds the loop gives up with
`none`. -/
theorem correctFieldsLoop_all_fail (env : PredictEnv) (ctx : ExecutionContext)
    (schema : Schema) (maxFields : Nat) (cm : Option ModelConfig)
    (sid : String) (hmf : 1 ≤ maxFields) (c : JSVal)
    (hc : deepCopyVal c = c)
    (hrv : (tryParseResponse env.jparse (stringifyValD c) schema).ok = false) :
    ∀ (rounds : Nat) (errs : List FieldError) (st : CallState),
      errs ≠ [] →
      (∀ n, st.n ≤ n → extractJsonPatch env.jparse ((env.backend n).text) = []) →
      correctFieldsLoop env ctx schema "json-patch" maxFields cm sid rounds
          c errs st =
        (none, { n := st.n + rounds,
                 trace := st.trace ++
                   List.replicate rounds (correctionRequest ctx cm sid) }) := by
  intro rounds
  induction rounds with
  | zero => intro errs st hne hp; simp [correctFieldsLoop]
  | succ r ih =>
      intro errs st hne hp
      have hte : (errs.take maxFields).isEmpty = false := by
        cases errs with
        | nil => exact absurd rfl hne
        | cons e es =>
            cases maxFields with
            | zero => omega
            | succ m => simp [List.take]
      simp only [correctFieldsLoop, callAgent, hte, Bool.false_eq_true, if_false]
      rw [if_neg (by decide : ¬ (("json-patch" : String) = "jq"))]
      rw [hp st.n (Nat.le_refl _), applyJsonPatch_nil, hc]
      obtain ⟨es', hes', hne'⟩ :=
        tryParseJson_fail_errors_ne env.jparse (stringifyValD c) schema hrv
      have hok : ((tryParseResponse env.jparse (stringifyValD c) schema).ok &&
          (tryParseResponse env.jparse (stringifyValD c) schema).data.isSome) = false := by
        rw [show tryParseResponse env.jparse (stringifyValD c) schema =
          tryParseJson env.jparse (stringifyValD c) schema from rfl] at hrv ⊢
        simp [hrv]
      rw [if_neg (by simp [hok])]
      have hgd : (tryParseResponse env.jparse (stringifyValD c) schema).errors.getD [] = es' := by
        rw [show tryParseResponse env.jparse (stringifyValD c) schema =
          tryParseJson env.jparse (stringifyValD c) schema from rfl, hes']
        rfl
      rw [hgd, if_neg (by simp [List.isEmpty_iff, hne'])]
      rw [ih es' { n := st.n + 1, trace := st.trace ++ [correctionRequest ctx cm sid] }
        hne' (fun n hn => hp n (Nat.le_of_succ_le hn))]
      refine congrArg (Prod.mk none) ?_
      have hn : st.n + 1 + r = st.n + (r + 1) := by omega
      simp [CallState.mk.injEq, List.replicate_succ, hn]

/-- **C3** (amended).  As amended: when the initial reply parses to an
object that fails validation and every re-validation of the patched JSON
fails with at least one field error (here: the patch replies carry no
operations, so the document is stuck at its deep copy, whose re-validation
fails), the field-correction loop performs exactly
`maxRounds` patch-request backend round-trips — never more — and
`Predict.execute` then raises a `SchemaValidationError` carrying the
field-error list of the *initial* (pre-correction) parse and the
configured `maxRounds` as `correctionAttempts`.  (The original claim says
the error carries the *final* field-error list; `claim_C3_counterexample`
refutes that.) -/
theorem claim_C3_correction_exhaustion (env : PredictEnv)
    (P : PredictConfig) (schema : Schema) (ctx : ExecutionContext)
    (st : CallState) (es0 : List FieldError) (j0 : JSFields)
    (hen : P.correction.enabled = true)
    (hm : P.correction.asConfig.method.getD "json-patch" = "json-patch")
    (hmf : 1 ≤ P.correction.asConfig.maxFields.getD 5)
    (h0ok : (tryParseResponse env.jparse (env.backend st.n).text schema).ok = false)
    (h0e : (tryParseResponse env.jparse (env.backend st.n).text schema).errors = some es0)
    (h0j : (tryParseResponse env.jparse (env.backend st.n).text schema).json = some j0)
    (hp : ∀ n, st.n + 1 ≤ n → extractJsonPatch env.jparse ((env.backend n).text) = [])
    (hrv : (tryParseResponse env.jparse
        (stringifyValD (JSVal.obj (deepCopyFields j0))) schema).ok = false) :
    (execute env P schema ctx st).2.2.n =
      st.n + 1 + P.correction.asConfig.maxRounds.getD 3 ∧
    (execute env P schema ctx st).2.2.trace =
      (st.trace ++ [initialRequest P ctx]) ++
        List.replicate (P.correction.asConfig.maxRounds.getD 3)
          (correctionRequest
            { ctx with sessionId := some (env.backend st.n).sessionId }
            P.correction.asConfig.model (env.backend st.n).sessionId) ∧
    (execute env P schema ctx st).1 = .error (mkSchemaError P es0) ∧
    (mkSchemaError P es0).fieldErrors = es0 ∧
    (mkSchemaError P es0).correctionAttempts =
      P.correction.asConfig.maxRounds.getD 3 := by
  have hne0 : es0 ≠ [] := by
    obtain ⟨es, hes, hne⟩ :=
      tryParseJson_fail_errors_ne env.jparse (env.backend st.n).text schema h0ok
    rw [show tryParseResponse env.jparse (env.backend st.n).text schema =
      tryParseJson env.jparse (env.backend st.n).text schema from rfl] at h0e
    rw [h0e] at hes
    injection hes with hes
    exact hes ▸ hne
  have hc : deepCopyVal (JSVal.obj (deepCopyFields j0)) =
      JSVal.obj (deepCopyFields j0) := by
    simp only [deepCopyVal]
    exact congrArg JSVal.obj (deepCopyFields_idem j0)
  have hloop := correctFieldsLoop_all_fail env
    { ctx with sessionId := some (env.backend st.n).sessionId } schema
    (P.correction.asConfig.maxFields.getD 5) P.correction.asConfig.model
    (env.backend st.n).sessionId hmf (JSVal.obj (deepCopyFields j0)) hc hrv
    (P.correction.asConfig.maxRounds.getD 3) es0
    { n := st.n + 1, trace := st.trace ++ [initialRequest P ctx] }
    hne0 (fun n hn => hp n hn)
  have hrest : executeRest env P schema
      { ctx with sessionId := some (env.backend st.n).sessionId }
      (env.backend st.n)
      { n := st.n + 1, trace := st.trace ++ [initialRequest P ctx] } =
      (.error (mkSchemaError P es0),
        { n := st.n + 1 + P.correction.asConfig.maxRounds.getD 3,
          trace := (st.trace ++ [initialRequest P ctx]) ++
            List.replicate (P.correction.asConfig.maxRounds.getD 3)
              (correctionRequest
                { ctx with sessionId := some (env.backend st.n).sessionId }
                P.correction.asConfig.model (env.backend st.n).sessionId) }) := by
    unfold executeRest
    dsimp only
    rw [dif_neg (by simp [h0ok])]
    simp only [isJsonParseErrorCheck_false, Bool.and_false, Bool.false_eq_true,
      if_false]
    rw [dif_neg (by simp [h0ok])]
    simp only [h0e, h0j]
    rw [if_pos hen]
    unfold correctFields
    dsimp only
    rw [hm, hloop]
    rfl
  have hexec : execute env P schema ctx st =
      (.error (mkSchemaError P es0),
        { ctx with sessionId := some (env.backend st.n).sessionId },
        { n := st.n + 1 + P.correction.asConfig.maxRounds.getD 3,
          trace := (st.trace ++ [initialRequest P ctx]) ++
            List.replicate (P.correction.asConfig.maxRounds.getD 3)
              (correctionRequest
                { ctx with sessionId := some (env.backend st.n).sessionId }
                P.correction.asConfig.model (env.backend st.n).sessionId) }) := by
    unfold execute
    simp only [callAgent]
    rw [hrest]
  refine ⟨by rw [hexec], by rw [hexec], by rw [hexec], rfl, ?_⟩
  cases hcor : P.correction with
  | unset => simp [mkSchemaError, hcor, CorrectionSetting.asConfig]
  | disabled => rw [hcor] at hen; simp [CorrectionSetting.enabled] at hen
  | config c => simp [mkSchemaError, hcor, CorrectionSetting.asConfig]







/-- Counterexample for C3 as stated.  In the `envC3` run every
re-validation fails with at least one field error and exactly `maxRounds`
(3) patch round-trips happen (four backend calls in all), but the raised
`SchemaValidationError` carries the **initial** error list `[a, b]` — not
the final field-error list: the document after the three rounds is
`{"a": "x"}` (third conjunct traces the loop's patch applications), whose
re-validation fails only on `b`, and `[a, b] ≠ [b]`. -/
theorem claim_C3_counterexample :
    (execute envC3 {} schemaC3 baseCtx {}).2.2.n = 4 ∧
    (execute envC3 {} schemaC3 baseCtx {}).1 =
      .error { message := "Schema validation failed: a: Invalid input: expected string, received undefined; b: Invalid input: expected string, received undefined"
               fieldErrors := [aErr, bErr]
               correctionAttempts := 3 } ∧
    applyJsonPatch (applyJsonPatch (applyJsonPatch (.obj (deepCopyFields .nil))
        (extractJsonPatch jsonParse (envC3.backend 1).text))
        (extractJsonPatch jsonParse (envC3.backend 2).text))
        (extractJsonPatch jsonParse (envC3.backend 3).text) =
      .obj (.cons "a" (.str "x") .nil) ∧
    (tryParseResponse jsonParse
        (stringifyValD (.obj (.cons "a" (.str "x") .nil))) schemaC3).errors =
      some [bErr] ∧
    [aErr, bErr] ≠ [bErr] :=
  ⟨rfl, rfl, rfl, rfl, fun h => by
    have hl := congrArg List.length h
    simp at hl⟩



/-- Witness for C3 (amended) at the concrete always-failing run: exactly
1 + 3 backend calls, the error carries the initial errors and
`correctionAttempts` 3. -/
theorem claim_C3_witness :
    (execute envC3W {} schemaC3 baseCtx {}).2.2.n =
      ({} : CallState).n + 1 + (({} : PredictConfig).correction.asConfig.maxRounds.getD 3) ∧
    (execute envC3W {} schemaC3 baseCtx {}).2.2.trace =
      (({} : CallState).trace ++ [initialRequest {} baseCtx]) ++
        List.replicate (({} : PredictConfig).correction.asConfig.maxRounds.getD 3)
          (correctionRequest
            { baseCtx with sessionId := some (envC3W.backend ({} : CallState).n).sessionId }
            (({} : PredictConfig).correction.asConfig.model)
            (envC3W.backend ({} : CallState).n).sessionId) ∧
    (execute envC3W {} schemaC3 baseCtx {}).1 =
      .error (mkSchemaError {} [aErr, bErr]) ∧
    (mkSchemaError {} [aErr, bErr]).fieldErrors = [aErr, bErr] ∧
    (mkSchemaError {} [aErr, bErr]).correctionAttempts =
      (({} : PredictConfig).correction.asConfig.maxRounds.getD 3) :=
  claim_C3_correction_exhaustion envC3W {} schemaC3 baseCtx {} [aErr, bErr]
    .nil rfl rfl (by decide) rfl rfl rfl
    (fun n hn =>
      match n, hn with
      | n + 1, _ => rfl)
    rfl

end Ocpipe
